import Mathlib

/-! Plane construction, validation and serialisation (`src/geom/shapes.cpp`).

A shallow embedding of `shapes.cpp`.  The C++ `double` is idealised as exact
arithmetic in a linearly ordered field `K`; the square root used by the vector
primitives (`norm`, `normalized`, `dist`) is an explicit function argument
`sqrt : K → K`, so every definition below is computable (for instance at
`K = ℚ`).  Theorems that need a fact about `sqrt` state it as a hypothesis at
the arguments where it is used.

The definitions of the edge/normal constructor ask of `K` only the operations
they use, so the same definitions are also evaluated at the type `Double`
below, whose operations round every result to 53 significant bits as IEEE-754
binary64 arithmetic does.  That instance is used where rounding decides the
outcome: the tolerance `1e-9` of the assertion.
-/

namespace Shapes

/-! ## Vector primitives (Eigen `Vector3d`, `Matrix3d`) -/

/-- A three-component vector, the embedding of `Eigen::Vector3d`. -/
@[ext]
structure Vector3d (K : Type) where
  x : K
  y : K
  z : K
deriving DecidableEq, Repr

namespace Vector3d

variable {K : Type}

/-- Componentwise sum, `u + v`. -/
def add [Add K] (u v : Vector3d K) : Vector3d K := ⟨u.x + v.x, u.y + v.y, u.z + v.z⟩

/-- Componentwise difference, `u - v`. -/
def sub [Sub K] (u v : Vector3d K) : Vector3d K := ⟨u.x - v.x, u.y - v.y, u.z - v.z⟩

/-- Scalar multiple, `s * v`. -/
def smul [Mul K] (s : K) (v : Vector3d K) : Vector3d K := ⟨s * v.x, s * v.y, s * v.z⟩

/-- Division by a scalar, `v / s`. -/
def sdiv [Div K] (v : Vector3d K) (s : K) : Vector3d K := ⟨v.x / s, v.y / s, v.z / s⟩

instance [Add K] : Add (Vector3d K) := ⟨add⟩
instance [Sub K] : Sub (Vector3d K) := ⟨sub⟩
instance [Mul K] : HSMul K (Vector3d K) (Vector3d K) := ⟨smul⟩

/-- The vector `Vector3d::Ones()`. -/
def Ones [One K] : Vector3d K := ⟨1, 1, 1⟩

/-- The vector `Vector3d::UnitX()`. -/
def UnitX [Zero K] [One K] : Vector3d K := ⟨1, 0, 0⟩

/-- The vector `Vector3d::UnitY()`. -/
def UnitY [Zero K] [One K] : Vector3d K := ⟨0, 1, 0⟩

/-- The inner product `u.dot(v)`. -/
def dot [Add K] [Mul K] (u v : Vector3d K) : K := u.x * v.x + u.y * v.y + u.z * v.z

/-- The squared Euclidean length `v.squaredNorm()`. -/
def squaredNorm [Add K] [Mul K] (v : Vector3d K) : K := dot v v

/-- The Euclidean length `v.norm()`, through the supplied square root. -/
def norm [Add K] [Mul K] (sqrt : K → K) (v : Vector3d K) : K := sqrt (squaredNorm v)

/-- Eigen's `v.normalized()`: divide by the length when the squared length is
positive, and return the vector unchanged otherwise. -/
def normalized [Add K] [Mul K] [Div K] [Zero K] [LT K] [DecidableRel fun a b : K => a < b]
    (sqrt : K → K) (v : Vector3d K) : Vector3d K :=
  let z := squaredNorm v
  if z > 0 then sdiv v (sqrt z) else v

end Vector3d

/-- The determinant of the 3×3 matrix whose columns are `c0`, `c1`, `c2`
(`mat << c0, c1, c2; mat.determinant()`), expanded along the first row. -/
def determinant {K : Type} [Add K] [Sub K] [Mul K] (c0 c1 c2 : Vector3d K) : K :=
  c0.x * (c1.y * c2.z - c2.y * c1.z)
    - c1.x * (c0.y * c2.z - c2.y * c0.z)
    + c2.x * (c0.y * c1.z - c1.y * c0.z)

/-- Modelled from the spec: `dist` is declared outside `shapes.cpp`; it is the
Euclidean distance between two points. -/
def dist {K : Type} [Add K] [Sub K] [Mul K] (sqrt : K → K) (u v : Vector3d K) : K :=
  Vector3d.norm sqrt (u - v)

/-! ## Data model -/

/-- A directed edge, `e[0]` and `e[1]`. -/
structure Edge (K : Type) where
  e0 : Vector3d K
  e1 : Vector3d K
deriving DecidableEq, Repr

/-- The bounding box `array<double, 6>`, destructured as `[a, b, c, x, y, z]`:
minimum corner `(a, b, c)`, maximum corner `(x, y, z)`. -/
structure BBox (K : Type) where
  a : K
  b : K
  c : K
  x : K
  y : K
  z : K
deriving DecidableEq, Repr

/-- The minimum corner `minCoords(a, b, c)`. -/
def BBox.minCoords {K : Type} (bbox : BBox K) : Vector3d K := ⟨bbox.a, bbox.b, bbox.c⟩

/-- The maximum corner `maxCoords(x, y, z)`. -/
def BBox.maxCoords {K : Type} (bbox : BBox K) : Vector3d K := ⟨bbox.x, bbox.y, bbox.z⟩

/-- The four ordered corners of a `Plane`. -/
@[ext]
structure Plane (K : Type) where
  p0 : Vector3d K
  p1 : Vector3d K
  p2 : Vector3d K
  p3 : Vector3d K
deriving DecidableEq, Repr

/-- The corners in order, `{p0, p1, p2, p3}`. -/
def Plane.corners {K : Type} (pl : Plane K) : List (Vector3d K) := [pl.p0, pl.p1, pl.p2, pl.p3]

/-! ## Edge/normal constructor -/

section EdgeConstructor

variable {K : Type} [Add K] [Sub K] [Mul K] [Div K] [Zero K] [One K] [NatCast K] [LT K]
  [DecidableRel fun a b : K => a < b]

/-- The tolerance `double EPSILON = 1e-9`. -/
def EPSILON : K := 1 / 1000000000

/-- The value `dist_diag` of the edge/normal constructor. -/
def dist_diag (sqrt : K → K) (bbox : BBox K) : K :=
  dist sqrt bbox.minCoords bbox.maxCoords

/-- The corners assigned by `Plane::Plane(Edge e, const Vector3d &norm,
array<double, 6> bbox)` (lines 16-34), before the assertion. -/
def edgeCorners (sqrt : K → K) (e : Edge K) (norm : Vector3d K) (bbox : BBox K) : Plane K :=
  let dd := dist_diag sqrt bbox
  let n := Vector3d.normalized sqrt (e.e1 - e.e0)
  let e0 := e.e0 - dd • n
  let e1 := e.e1 + dd • n
  { p0 := e0 + dd • norm
    p1 := e0 - dd • norm
    p2 := e1 - dd • norm
    p3 := e1 + dd • norm }

/-- The determinant formed on lines 38-39 from the corners of a plane. -/
def Plane.det (pl : Plane K) : K :=
  determinant (pl.p1 - pl.p0) (pl.p2 - pl.p0) (pl.p3 - pl.p0)

/-- The condition of the assertion on line 40, `mat.determinant() < EPSILON`. -/
def Plane.assertion (pl : Plane K) : Bool := decide (pl.det < EPSILON)

/-- The edge/normal constructor with its assertion: `none` is the failed
assertion (the process aborts), `some pl` the constructed plane. -/
def Plane.fromEdge (sqrt : K → K) (e : Edge K) (norm : Vector3d K) (bbox : BBox K) :
    Option (Plane K) :=
  let pl := edgeCorners sqrt e norm bbox
  if pl.assertion then some pl else none

end EdgeConstructor

/-! ## Double arithmetic

Finite IEEE-754 binary64 values as rationals.  Each of `+`, `-`, `*`, `/` and
the square root returns the exact result rounded to nearest, ties to even, at
53 significant bits.  Overflow, underflow to subnormals, infinities and NaN
are not modelled (a division by zero gives `0` here); the inputs evaluated
below stay far from those ranges. -/

/-- The position of the leading bit of `n`, by halving at most `fuel` times. -/
def ilog2Fuel : Nat → Nat → Nat
  | 0, _ => 0
  | fuel + 1, n => if n < 2 then 0 else ilog2Fuel fuel (n / 2) + 1

/-- The position of the leading bit of `n`: the largest `k` with `2 ^ k ≤ n`
(`0` for `n = 0`). -/
def ilog2 (n : Nat) : Nat := ilog2Fuel n n

/-- The positive rational `n / d` rounded to 53 significant bits, to nearest,
ties to even: with `e` the exponent for which `n / (d * 2 ^ e)` lies in
`[2 ^ 52, 2 ^ 53)`, the result is `m * 2 ^ e` for the integer `m` nearest to
`n / (d * 2 ^ e)`. -/
def roundPos (n d : Nat) : ℚ :=
  let e0 : Int := (ilog2 n : Int) - (ilog2 d : Int) - 52
  let scaled : Int → Nat × Nat := fun e =>
    if 0 ≤ e then (n, d * 2 ^ e.toNat) else (n * 2 ^ (-e).toNat, d)
  let e : Int := if (scaled e0).1 / (scaled e0).2 < 2 ^ 52 then e0 - 1 else e0
  let N := (scaled e).1
  let D := (scaled e).2
  let f := N / D
  let r := N % D
  let m := if 2 * r < D then f else if D < 2 * r then f + 1 else if f % 2 = 0 then f else f + 1
  if 0 ≤ e then (m * 2 ^ e.toNat : Nat) else (m : ℚ) / (2 ^ (-e).toNat : Nat)

/-- Rounding of a rational to the nearest double, ties to even. -/
def roundNE (q : ℚ) : ℚ :=
  if q = 0 then 0
  else if 0 < q then roundPos q.num.toNat q.den
  else -roundPos (-q).num.toNat q.den

/-- The integer square root, bit by bit from bit `b` down, with `r` the bits
found so far. -/
def isqrtBits (n : Nat) : Nat → Nat → Nat
  | 0, r => if (r + 1) * (r + 1) ≤ n then r + 1 else r
  | b + 1, r =>
    isqrtBits n b (if (r + 2 ^ (b + 1)) * (r + 2 ^ (b + 1)) ≤ n then r + 2 ^ (b + 1) else r)

/-- The integer square root: the largest `r` with `r * r ≤ n`. -/
def isqrt (n : Nat) : Nat := isqrtBits n (ilog2 n / 2 + 1) 0

/-- The correctly rounded square root of a rational (`0` for a non-positive
one): the integer square root of `q * 4 ^ t` has more than 54 bits, and a
sticky half unit records an inexact root before the final rounding. -/
def sqrtNE (q : ℚ) : ℚ :=
  if q ≤ 0 then 0
  else
    let n := q.num.toNat
    let d := q.den
    let t : Nat := 56 + ilog2 d
    let N := (n * 4 ^ t) / d
    let rem := (n * 4 ^ t) % d
    let r := isqrt N
    let sticky : Nat := if r * r = N ∧ rem = 0 then 0 else 1
    roundNE ((2 * r + sticky : Nat) / (2 ^ (t + 1) : Nat))

/-- A finite `double`, by its exact rational value. -/
structure Double where
  val : ℚ
deriving DecidableEq, Repr

namespace Double

instance : Zero Double := ⟨⟨0⟩⟩
instance : One Double := ⟨⟨1⟩⟩
instance : NatCast Double := ⟨fun n => ⟨roundNE n⟩⟩
instance : Neg Double := ⟨fun a => ⟨-a.val⟩⟩
instance : Add Double := ⟨fun a b => ⟨roundNE (a.val + b.val)⟩⟩
instance : Sub Double := ⟨fun a b => ⟨roundNE (a.val - b.val)⟩⟩
instance : Mul Double := ⟨fun a b => ⟨roundNE (a.val * b.val)⟩⟩
instance : Div Double := ⟨fun a b => ⟨roundNE (a.val / b.val)⟩⟩
instance : LT Double := ⟨fun a b => a.val < b.val⟩
instance : DecidableRel fun a b : Double => a < b :=
  fun a b => inferInstanceAs (Decidable (a.val < b.val))

/-- The function `std::sqrt` on doubles, correctly rounded. -/
def sqrt (a : Double) : Double := ⟨sqrtNE a.val⟩

end Double

/-- The edge `((0,0,0), (30,40,20))`. -/
def dblEdge : Edge Double := ⟨⟨0, 0, 0⟩, ⟨30, 40, 20⟩⟩

/-- The normal `(0.8, -0.6, 0)`, as the doubles nearest to `0.8` and `0.6`; in
exact arithmetic a unit vector perpendicular to `dblEdge`. -/
def dblNormal : Vector3d Double := ⟨4 / 5, -(3 / 5), 0⟩

/-- The bounding box with corners `(0,0,0)` and `(100,100,100)`. -/
def dblBBox100 : BBox Double := ⟨0, 0, 0, 100, 100, 100⟩

/-- The bounding box with corners `(0,0,0)` and `(128,128,128)`. -/
def dblBBox128 : BBox Double := ⟨0, 0, 0, 128, 128, 128⟩

/-- The corners as the specification words them (section 4.1, steps 1-4):
`dist_diag = |max - min|`, `d = (e1 - e0) / |e1 - e0|`, the endpoints extended
to `e0 - dist_diag * d` and `e1 + dist_diag * d`, and each offset by
`± dist_diag * n`.  Compared with `edgeCorners`, which follows the code. -/
def edgeCornersSpec {K : Type} [LinearOrderedField K] (sqrt : K → K) (e : Edge K)
    (n : Vector3d K) (bbox : BBox K) : Plane K :=
  let dd := Vector3d.norm sqrt (bbox.maxCoords - bbox.minCoords)
  let d := Vector3d.sdiv (e.e1 - e.e0) (Vector3d.norm sqrt (e.e1 - e.e0))
  let e0' := e.e0 - dd • d
  let e1' := e.e1 + dd • d
  { p0 := e0' + dd • n
    p1 := e0' - dd • n
    p2 := e1' - dd • n
    p3 := e1' + dd • n }

/-- The value is a square root of `x`: non-negative with square `x`.  This is
what the theorems below assume of the supplied `sqrt` at the arguments where
the constructor evaluates it. -/
def IsSqrtAt {K : Type} [LinearOrderedField K] (sqrt : K → K) (x : K) : Prop :=
  0 ≤ sqrt x ∧ sqrt x * sqrt x = x

/-- The point lies in the axis-aligned box `[minCoords, maxCoords]`. -/
def BBox.contains {K : Type} [LinearOrderedField K] (bbox : BBox K) (q : Vector3d K) : Prop :=
  bbox.a ≤ q.x ∧ q.x ≤ bbox.x ∧ bbox.b ≤ q.y ∧ q.y ≤ bbox.y ∧ bbox.c ≤ q.z ∧ q.z ≤ bbox.z

/-- The point `v` lies on the segment from `a` to `b`. -/
def OnSegment {K : Type} [LinearOrderedField K] (a b v : Vector3d K) : Prop :=
  ∃ t : K, 0 ≤ t ∧ t ≤ 1 ∧ v = (1 - t) • a + t • b

/-- The point `v` is a convex combination of the four corners of `pl`. -/
def IsConvexComb {K : Type} [LinearOrderedField K] (pl : Plane K) (v : Vector3d K) : Prop :=
  ∃ w0 w1 w2 w3 : K, 0 ≤ w0 ∧ 0 ≤ w1 ∧ 0 ≤ w2 ∧ 0 ≤ w3 ∧ w0 + w1 + w2 + w3 = 1 ∧
    v = w0 • pl.p0 + w1 • pl.p1 + w2 • pl.p2 + w3 • pl.p3

/-- The midpoint of two points. -/
def midpoint {K : Type} [LinearOrderedField K] (u v : Vector3d K) : Vector3d K :=
  (1 / 2 : K) • (u + v)

/-- The point `X` lies in the closed triangle `A B C`. -/
def InTriangle {K : Type} [LinearOrderedField K] (A B C X : Vector3d K) : Prop :=
  ∃ a b c : K, 0 ≤ a ∧ 0 ≤ b ∧ 0 ≤ c ∧ a + b + c = 1 ∧ X = a • A + b • B + c • C

/-- The point `X` lies in the interior of the triangle `A B C`. -/
def InTriangleInterior {K : Type} [LinearOrderedField K] (A B C X : Vector3d K) : Prop :=
  ∃ a b c : K, 0 < a ∧ 0 < b ∧ 0 < c ∧ a + b + c = 1 ∧ X = a • A + b • B + c • C

/-- The point `X` lies in the filled quadrilateral `p0 p1 p2 p3`, written from
the corner `p1` along the sides `p1 p2` and `p1 p0`. -/
def InQuad {K : Type} [LinearOrderedField K] (pl : Plane K) (X : Vector3d K) : Prop :=
  ∃ u v : K, 0 ≤ u ∧ u ≤ 1 ∧ 0 ≤ v ∧ v ≤ 1 ∧
    X = pl.p1 + u • (pl.p2 - pl.p1) + v • (pl.p0 - pl.p1)

/-- The point of the plane through `o` spanned by `d` and `n` whose
coordinates along `d` and `n` are those of `q`; for orthonormal `d`, `n` it is
the orthogonal projection of `q` onto that plane. -/
def planeProjection {K : Type} [LinearOrderedField K] (o d n q : Vector3d K) : Vector3d K :=
  o + Vector3d.dot d (q - o) • d + Vector3d.dot n (q - o) • n

/-! ## Hull-equation constructor -/

section HullConstructor

variable {K : Type} [LinearOrderedField K]

/-- The hull-plane equation `quickhull::Plane<double>`: normal `m_N` and
offset `m_D`. -/
structure HullPlane (K : Type) where
  m_N : Vector3d K
  m_D : K
deriving DecidableEq, Repr

/-- The point `planePoint = -p.m_D * planeNormal` (line 46). -/
def planePoint (p : HullPlane K) : Vector3d K :=
  (-p.m_D) • (⟨p.m_N.x, p.m_N.y, p.m_N.z⟩ : Vector3d K)

/-- The constructor `Plane::Plane(const quickhull::Plane<double> &p,
std::array<double, 6> bbox)`.  `BOUNDS_PADDING` is the global of line 12 and
`p3` the value of the member `p3` read on line 59 before it is assigned. -/
def Plane.fromHull (BOUNDS_PADDING : K) (p3 : Vector3d K) (p : HullPlane K) (bbox : BBox K) :
    Plane K :=
  let planeNormal : Vector3d K := ⟨p.m_N.x, p.m_N.y, p.m_N.z⟩
  let planePoint := (-p.m_D) • planeNormal
  let minCoords := bbox.minCoords
  let maxCoords := bbox.maxCoords
  let p0 := minCoords - BOUNDS_PADDING • (Vector3d.Ones : Vector3d K)
  let p1 := minCoords - BOUNDS_PADDING • (Vector3d.UnitX : Vector3d K) +
    (maxCoords.x - minCoords.x + 2 * BOUNDS_PADDING) • (Vector3d.UnitX : Vector3d K)
  let p2 := minCoords - BOUNDS_PADDING • (Vector3d.UnitY : Vector3d K) +
    (maxCoords.y - minCoords.y + 2 * BOUNDS_PADDING) • (Vector3d.UnitY : Vector3d K)
  { p0 := p0
    p1 := p1
    p2 := p2
    p3 := planePoint +
      (Vector3d.dot (p0 - planePoint) planeNormal / Vector3d.dot planeNormal (p0 - p3)) •
        (p3 - p0) }

/-- The divisor `planeNormal.dot(p0 - p3)` of line 59, with `p3` the value the
member holds before the assignment. -/
def hullDivisor (BOUNDS_PADDING : K) (p3 : Vector3d K) (p : HullPlane K) (bbox : BBox K) : K :=
  Vector3d.dot (⟨p.m_N.x, p.m_N.y, p.m_N.z⟩ : Vector3d K)
    ((Plane.fromHull BOUNDS_PADDING p3 p bbox).p0 - p3)

end HullConstructor

/-! ## File save and load -/

section FileIO

variable {K : Type}

/-- One line of the mesh file: a vertex record `v x y z` or a face record
`f i j k ...` of 1-based vertex indices. -/
inductive Record (K : Type) where
  | v (x y z : K)
  | f (indices : List Nat)
deriving DecidableEq, Repr

/-- The hard-coded faces of line 105, `{array{1, 2, 0}, {1, 3, 2}}`. -/
def faces : List (List Nat) := [[1, 2, 0], [1, 3, 2]]

/-- The records `Plane::save_to_file` streams to the freshly opened file: one
`v` line per corner in the order `{p0, p1, p2, p3}`, then one `f` line per
hard-coded face with every index incremented by one. -/
def save_to_file (pl : Plane K) : List (Record K) :=
  ([pl.p0, pl.p1, pl.p2, pl.p3].map fun v => Record.v v.x v.y v.z) ++
    (faces.map fun f => Record.f (f.map fun fi => fi + 1))

/-- The triangles the face records of `save_to_file` describe: each hard-coded
face with its indices resolved in the vertex list `{p0, p1, p2, p3}`. -/
def triangles (pl : Plane K) : List (List (Vector3d K)) :=
  faces.map fun f => f.filterMap fun fi => pl.corners[fi]?

/-- The vertex indices two faces have in common. -/
def sharedVertices (f g : List Nat) : List Nat := f.filter fun i => g.contains i

/-- The vertices `i` and `j` are joined by a side of the quadrilateral connected
as `p0 → p1 → p2 → p3 → p0`. -/
def isSide (i j : Nat) : Bool := (i + 1) % 4 == j % 4 || (j + 1) % 4 == i % 4

/-- The vertices `i` and `j` are joined by a diagonal of the quadrilateral
connected as `p0 → p1 → p2 → p3 → p0` (`p0 p2` or `p1 p3`). -/
def isDiagonal (i j : Nat) : Bool := (i + 2) % 4 == j % 4

/-- The files of the file system by path: the records a file holds, or `none`
when there is no file. -/
abbrev FileSystem (K : Type) : Type := String → Option (List (Record K))

/-- The state of the `ofstream outfile`: whether the stream is good (the open
succeeded) and the path it writes to. -/
structure OfStream where
  good : Bool
  path : String
deriving DecidableEq, Repr

/-- The call `outfile.open(path)` of line 96.  `canOpen` is the environment:
the paths that can be opened for writing.  On success the file is created or
emptied and the stream is good; on failure the file system is unchanged and
the stream is in its failed state. -/
def OfStream.openFile (canOpen : String → Bool) (fs : FileSystem K) (path : String) :
    OfStream × FileSystem K :=
  if canOpen path then (⟨true, path⟩, fun p => if p = path then some [] else fs p)
  else (⟨false, path⟩, fs)

/-- One line streamed with `outfile << ... << endl`: the record is appended to
the file of a good stream; a failed stream writes nothing (the source never
tests the stream). -/
def OfStream.writeRecord (outfile : OfStream) (fs : FileSystem K) (r : Record K) :
    FileSystem K :=
  if outfile.good then
    fun p => if p = outfile.path then some ((fs p).getD [] ++ [r]) else fs p
  else fs

/-- The effect of `Plane::save_to_file(path)` on the file system: the open of
line 96, the loop of lines 99-101 over `{p0, p1, p2, p3}`, the loop of lines
105-109 over the hard-coded faces, each line written through the stream. -/
def save_to_file_at (canOpen : String → Bool) (fs : FileSystem K) (path : String)
    (pl : Plane K) : FileSystem K :=
  let opened := OfStream.openFile canOpen fs path
  let outfile := opened.1
  let fs1 := [pl.p0, pl.p1, pl.p2, pl.p3].foldl
    (fun fs v => outfile.writeRecord fs (Record.v v.x v.y v.z)) opened.2
  faces.foldl (fun fs f => outfile.writeRecord fs (Record.f (f.map fun fi => fi + 1))) fs1

/-- Modelled from the spec: the mesh-file parser `tinyobj::LoadObj` is an
external collaborator; of its result the loader reads only `attrib.vertices`,
the coordinates of the vertex records, flattened, in file order. -/
def LoadObj : List (Record K) → List K
  | [] => []
  | Record.v x y z :: rest => x :: y :: z :: LoadObj rest
  | Record.f _ :: rest => LoadObj rest

/-- The flat layout of `attrib.vertices` for a list of parsed vertices. -/
def toAttrib : List (Vector3d K) → List K
  | [] => []
  | v :: rest => v.x :: v.y :: v.z :: toAttrib rest

/-- The comparator of `set<Vector3d>` is declared outside `shapes.cpp`; the
theorems assume of it that it is a strict total order, so that two vertices
are equivalent for the set exactly when their coordinates are equal. -/
structure IsStrictTotal {α : Type} (lt : α → α → Bool) : Prop where
  irrefl : ∀ a, lt a a = false
  trans : ∀ a b c, lt a b = true → lt b c = true → lt a c = true
  total : ∀ a b, lt a b = false → lt b a = false → a = b

/-- Lexicographic comparison of coordinates, a comparator that is a strict
total order. -/
def Vector3d.lexLt [LinearOrder K] (u v : Vector3d K) : Bool :=
  decide (u.x < v.x ∨ (u.x = v.x ∧ (u.y < v.y ∨ (u.y = v.y ∧ u.z < v.z))))

/-- The operation `verts_set.emplace(...)`: the set is kept as its sorted
sequence of elements; an element equivalent to one already present is not
inserted. -/
def set_emplace (lt : Vector3d K → Vector3d K → Bool) (v : Vector3d K) :
    List (Vector3d K) → List (Vector3d K)
  | [] => [v]
  | h :: t =>
    if lt v h then v :: h :: t
    else if lt h v then h :: set_emplace lt v t
    else h :: t

/-- The loop of lines 84-86 over `attrib.vertices`, three coordinates at a
time; `none` when `vertices[i + 1]` or `vertices[i + 2]` is past the end. -/
def collectVerts (lt : Vector3d K → Vector3d K → Bool) :
    List K → List (Vector3d K) → Option (List (Vector3d K))
  | [], verts_set => some verts_set
  | x :: y :: z :: rest, verts_set => collectVerts lt rest (set_emplace lt ⟨x, y, z⟩ verts_set)
  | _, _ => none

/-- The set built from a list of vertices by successive `emplace`. -/
def vertsSet (lt : Vector3d K → Vector3d K → Bool) (vs : List (Vector3d K)) :
    List (Vector3d K) :=
  vs.foldl (fun s v => set_emplace lt v s) []

/-- The outcomes of `Plane::load_from_file`: a plane, `exit(1)` after a parse
failure, or an access past the end of a vector (undefined behaviour in the
source; there is no other error outcome). -/
inductive LoadResult (K : Type) where
  | plane (pl : Plane K)
  | exitFailure
  | outOfBounds
deriving DecidableEq, Repr

/-- The function `Plane::load_from_file`, from the parser's result: `ret` is
the value returned by `LoadObj` and `vertices` is `attrib.vertices`. -/
def load_from_file (lt : Vector3d K → Vector3d K → Bool) (ret : Bool) (vertices : List K) :
    LoadResult K :=
  if !ret then LoadResult.exitFailure
  else
    match collectVerts lt vertices [] with
    | none => LoadResult.outOfBounds
    | some verts =>
      match verts[0]?, verts[1]?, verts[2]?, verts[3]? with
      | some v0, some v1, some v2, some v3 => LoadResult.plane ⟨v0, v1, v2, v3⟩
      | _, _, _, _ => LoadResult.outOfBounds

end FileIO

/-! ## Sample inputs over `ℚ` -/

/-- The edge `((0,0,0), (1,0,0))`, of length 1. -/
def sampleEdge : Edge ℚ := ⟨⟨0, 0, 0⟩, ⟨1, 0, 0⟩⟩

/-- The unit normal `(0,0,1)`, perpendicular to `sampleEdge`. -/
def sampleNormal : Vector3d ℚ := ⟨0, 0, 1⟩

/-- The box with corners `(0,0,0)` and `(1,2,2)`, of diagonal length 3. -/
def sampleBBox : BBox ℚ := ⟨0, 0, 0, 1, 2, 2⟩

/-- The corner `(1,2,2)` of `sampleBBox`, a point of the box. -/
def samplePoint : Vector3d ℚ := ⟨1, 2, 2⟩

/-- A plane with four distinct corners. -/
def samplePlane : Plane ℚ := ⟨⟨-3, 0, 3⟩, ⟨-3, 0, -3⟩, ⟨4, 0, -3⟩, ⟨4, 0, 3⟩⟩

/-- A parsed vertex list with four distinct vertices, one of them repeated. -/
def sampleVerts : List (Vector3d ℚ) :=
  [⟨4, 0, 3⟩, ⟨-3, 0, 3⟩, ⟨4, 0, -3⟩, ⟨-3, 0, -3⟩, ⟨4, 0, 3⟩]

/-- The same four vertices in another order, without repetition. -/
def sampleVertsReordered : List (Vector3d ℚ) :=
  [⟨-3, 0, -3⟩, ⟨4, 0, -3⟩, ⟨4, 0, 3⟩, ⟨-3, 0, 3⟩]

/-- A parsed vertex list with only three vertices. -/
def threeVerts : List (Vector3d ℚ) := [⟨0, 0, 0⟩, ⟨1, 0, 0⟩, ⟨0, 1, 0⟩]

/-- A parsed vertex list of four records, two of them equal. -/
def fourVertsTwoEqual : List (Vector3d ℚ) := [⟨0, 0, 0⟩, ⟨1, 0, 0⟩, ⟨0, 1, 0⟩, ⟨1, 0, 0⟩]

/-- The hull plane `z = -5`: unit normal `(0,0,1)`, offset `5`. -/
def sampleHull : HullPlane ℚ := ⟨⟨0, 0, 1⟩, 5⟩

/-- The unit box with corners `(0,0,0)` and `(1,1,1)`. -/
def unitBBox : BBox ℚ := ⟨0, 0, 0, 1, 1, 1⟩

/-- A box of zero volume, `min = max = (1,1,1)`. -/
def pointBBox : BBox ℚ := ⟨1, 1, 1, 1, 1, 1⟩

/-- Another hull plane: unit normal `(1,0,0)`, offset `-2`. -/
def otherHull : HullPlane ℚ := ⟨⟨1, 0, 0⟩, -2⟩

/-! ## The scenario of the specification, over any field -/

/-- The edge `((0,0,0), (1,0,0))` of the scenario. -/
def scenarioEdge (K : Type) [LinearOrderedField K] : Edge K := ⟨⟨0, 0, 0⟩, ⟨1, 0, 0⟩⟩

/-- The normal `(0,0,1)` of the scenario. -/
def scenarioNormal (K : Type) [LinearOrderedField K] : Vector3d K := ⟨0, 0, 1⟩

/-- The bounding box of the scenario, `min (-1,-1,-1)`, `max (2,1,1)`. -/
def scenarioBBox (K : Type) [LinearOrderedField K] : BBox K := ⟨-1, -1, -1, 2, 1, 1⟩

/-- An environment in which no path can be opened for writing. -/
def noPathOpens : String → Bool := fun _ => false

/-- An environment in which every path can be opened for writing. -/
def everyPathOpens : String → Bool := fun _ => true

/-- A file system whose files are all empty. -/
def emptyFiles : FileSystem ℚ := fun _ => some []

/-- A file system whose files all hold the one record `v 7 7 7`. -/
def oneRecordFiles : FileSystem ℚ := fun _ => some [Record.v 7 7 7]

/-! ## Theorems -/

namespace Vector3d

variable {K : Type}

@[simp] theorem add_x [Add K] (u v : Vector3d K) : (u + v).x = u.x + v.x := rfl
@[simp] theorem add_y [Add K] (u v : Vector3d K) : (u + v).y = u.y + v.y := rfl
@[simp] theorem add_z [Add K] (u v : Vector3d K) : (u + v).z = u.z + v.z := rfl
@[simp] theorem sub_x [Sub K] (u v : Vector3d K) : (u - v).x = u.x - v.x := rfl
@[simp] theorem sub_y [Sub K] (u v : Vector3d K) : (u - v).y = u.y - v.y := rfl
@[simp] theorem sub_z [Sub K] (u v : Vector3d K) : (u - v).z = u.z - v.z := rfl
@[simp] theorem smul_x [Mul K] (s : K) (v : Vector3d K) : (s • v).x = s * v.x := rfl
@[simp] theorem smul_y [Mul K] (s : K) (v : Vector3d K) : (s • v).y = s * v.y := rfl
@[simp] theorem smul_z [Mul K] (s : K) (v : Vector3d K) : (s • v).z = s * v.z := rfl
@[simp] theorem sdiv_x [Div K] (v : Vector3d K) (s : K) : (sdiv v s).x = v.x / s := rfl
@[simp] theorem sdiv_y [Div K] (v : Vector3d K) (s : K) : (sdiv v s).y = v.y / s := rfl
@[simp] theorem sdiv_z [Div K] (v : Vector3d K) (s : K) : (sdiv v s).z = v.z / s := rfl

end Vector3d

section EdgeTheorems

variable {K : Type} [LinearOrderedField K]

theorem EPSILON_pos : (0 : K) < EPSILON := by
  unfold EPSILON; positivity

/-- The corners built by the edge/normal constructor are exactly coplanar. -/
theorem edgeCorners_det (sqrt : K → K) (e : Edge K) (norm : Vector3d K) (bbox : BBox K) :
    (edgeCorners sqrt e norm bbox).det = 0 := by
  simp only [Plane.det, edgeCorners, determinant, Vector3d.sub_x, Vector3d.sub_y,
    Vector3d.sub_z, Vector3d.add_x, Vector3d.add_y, Vector3d.add_z, Vector3d.smul_x,
    Vector3d.smul_y, Vector3d.smul_z]
  ring

/-- The assertion of the edge/normal constructor never fails. -/
theorem fromEdge_eq (sqrt : K → K) (e : Edge K) (norm : Vector3d K) (bbox : BBox K) :
    Plane.fromEdge sqrt e norm bbox = some (edgeCorners sqrt e norm bbox) := by
  have hp : (edgeCorners sqrt e norm bbox).assertion = true := by
    simp only [Plane.assertion, decide_eq_true_eq, edgeCorners_det]
    exact EPSILON_pos
  simp [Plane.fromEdge, hp]

theorem squaredNorm_sub_comm (u v : Vector3d K) :
    Vector3d.squaredNorm (u - v) = Vector3d.squaredNorm (v - u) := by
  simp only [Vector3d.squaredNorm, Vector3d.dot, Vector3d.sub_x, Vector3d.sub_y, Vector3d.sub_z]
  ring

theorem squaredNorm_nonneg (v : Vector3d K) : 0 ≤ Vector3d.squaredNorm v := by
  simp only [Vector3d.squaredNorm, Vector3d.dot]
  nlinarith [mul_self_nonneg v.x, mul_self_nonneg v.y, mul_self_nonneg v.z]

theorem squaredNorm_sub_pos {u v : Vector3d K} (h : u ≠ v) :
    0 < Vector3d.squaredNorm (v - u) := by
  rcases lt_or_eq_of_le (squaredNorm_nonneg (v - u)) with hpos | hzero
  · exact hpos
  · exfalso
    apply h
    simp only [Vector3d.squaredNorm, Vector3d.dot, Vector3d.sub_x, Vector3d.sub_y,
      Vector3d.sub_z] at hzero
    have hx : (v.x - u.x) * (v.x - u.x) = 0 := by
      nlinarith [mul_self_nonneg (v.x - u.x), mul_self_nonneg (v.y - u.y),
        mul_self_nonneg (v.z - u.z)]
    have hy : (v.y - u.y) * (v.y - u.y) = 0 := by
      nlinarith [mul_self_nonneg (v.x - u.x), mul_self_nonneg (v.y - u.y),
        mul_self_nonneg (v.z - u.z)]
    have hz : (v.z - u.z) * (v.z - u.z) = 0 := by
      nlinarith [mul_self_nonneg (v.x - u.x), mul_self_nonneg (v.y - u.y),
        mul_self_nonneg (v.z - u.z)]
    ext
    · exact (sub_eq_zero.mp (mul_self_eq_zero.mp hx)).symm
    · exact (sub_eq_zero.mp (mul_self_eq_zero.mp hy)).symm
    · exact (sub_eq_zero.mp (mul_self_eq_zero.mp hz)).symm

theorem normalized_of_ne (sqrt : K → K) {u v : Vector3d K} (h : u ≠ v) :
    Vector3d.normalized sqrt (v - u)
      = Vector3d.sdiv (v - u) (sqrt (Vector3d.squaredNorm (v - u))) := by
  simp only [Vector3d.normalized]
  rw [if_pos (squaredNorm_sub_pos h)]

theorem dist_diag_eq (sqrt : K → K) (bbox : BBox K) :
    dist_diag sqrt bbox = Vector3d.norm sqrt (bbox.maxCoords - bbox.minCoords) := by
  simp only [dist_diag, dist, Vector3d.norm]
  rw [squaredNorm_sub_comm]

/-- For a non-degenerate edge the code's corners are the specification's. -/
theorem edgeCorners_eq_spec (sqrt : K → K) (e : Edge K) (norm : Vector3d K) (bbox : BBox K)
    (hne : e.e0 ≠ e.e1) :
    edgeCorners sqrt e norm bbox = edgeCornersSpec sqrt e norm bbox := by
  simp only [edgeCorners, edgeCornersSpec, normalized_of_ne sqrt hne, dist_diag_eq,
    Vector3d.norm]

theorem ratSqrt_one : Rat.sqrt 1 = 1 := by
  have h : Rat.sqrt (1 * 1) = |1| := Rat.sqrt_eq 1
  rw [show (1 : ℚ) * 1 = 1 by norm_num, show |(1 : ℚ)| = 1 by norm_num] at h
  exact h

theorem ratSqrt_nine : Rat.sqrt 9 = 3 := by
  have h : Rat.sqrt (3 * 3) = |3| := Rat.sqrt_eq 3
  rw [show (3 : ℚ) * 3 = 9 by norm_num, show |(3 : ℚ)| = 3 by norm_num] at h
  exact h

/-- C1 (what the code does): in double arithmetic, for the edge
`((0,0,0),(30,40,20))`, the normal `(0.8,-0.6,0)` and the bounding box
`(0,0,0)-(128,128,128)`, the corners the edge/normal constructor builds have
`det[(p1-p0), (p2-p0), (p3-p0)] = 2^-29`, about `1.86e-9` and not below `1e-9`:
the assertion of line 40 fails on the points the constructor built, and no
plane is returned. -/
theorem C1_assertion_fails_in_doubles :
    (edgeCorners Double.sqrt dblEdge dblNormal dblBBox128).det.val = 1 / 536870912 ∧
    ¬ (|(edgeCorners Double.sqrt dblEdge dblNormal dblBBox128).det.val| < 1 / 1000000000) ∧
    (edgeCorners Double.sqrt dblEdge dblNormal dblBBox128).assertion = false ∧
    Plane.fromEdge Double.sqrt dblEdge dblNormal dblBBox128 = none := by
  have hdet : (edgeCorners Double.sqrt dblEdge dblNormal dblBBox128).det.val
      = 1 / 536870912 := by decide!
  refine ⟨hdet, ?_, by decide!, by decide!⟩
  rw [hdet]
  norm_num [abs_of_pos]

/-- C2: for a non-degenerate edge the edge/normal constructor returns exactly
the corners `p0 = e0' + dist_diag*n`, `p1 = e0' - dist_diag*n`,
`p2 = e1' - dist_diag*n`, `p3 = e1' + dist_diag*n` with `d = (e1 - e0)/|e1 - e0|`,
`e0' = e0 - dist_diag*d`, `e1' = e1 + dist_diag*d`, `dist_diag = |max - min|`. -/
theorem C2_edge_constructor_corners (sqrt : K → K) (e : Edge K) (n : Vector3d K)
    (bbox : BBox K) (hne : e.e0 ≠ e.e1) :
    Plane.fromEdge sqrt e n bbox = some
      { p0 := (e.e0 - Vector3d.norm sqrt (bbox.maxCoords - bbox.minCoords) •
            Vector3d.sdiv (e.e1 - e.e0) (Vector3d.norm sqrt (e.e1 - e.e0)))
          + Vector3d.norm sqrt (bbox.maxCoords - bbox.minCoords) • n
        p1 := (e.e0 - Vector3d.norm sqrt (bbox.maxCoords - bbox.minCoords) •
            Vector3d.sdiv (e.e1 - e.e0) (Vector3d.norm sqrt (e.e1 - e.e0)))
          - Vector3d.norm sqrt (bbox.maxCoords - bbox.minCoords) • n
        p2 := (e.e1 + Vector3d.norm sqrt (bbox.maxCoords - bbox.minCoords) •
            Vector3d.sdiv (e.e1 - e.e0) (Vector3d.norm sqrt (e.e1 - e.e0)))
          - Vector3d.norm sqrt (bbox.maxCoords - bbox.minCoords) • n
        p3 := (e.e1 + Vector3d.norm sqrt (bbox.maxCoords - bbox.minCoords) •
            Vector3d.sdiv (e.e1 - e.e0) (Vector3d.norm sqrt (e.e1 - e.e0)))
          + Vector3d.norm sqrt (bbox.maxCoords - bbox.minCoords) • n }
      ∧ Plane.fromEdge sqrt e n bbox = some (edgeCornersSpec sqrt e n bbox) := by
  rw [fromEdge_eq, edgeCorners_eq_spec sqrt e n bbox hne]
  exact ⟨rfl, rfl⟩

theorem sample_ne : sampleEdge.e0 ≠ sampleEdge.e1 := by
  intro h
  have hx := congrArg Vector3d.x h
  norm_num [sampleEdge] at hx

theorem sample_edge_squaredNorm :
    Vector3d.squaredNorm (sampleEdge.e1 - sampleEdge.e0) = 1 := by
  norm_num [sampleEdge, Vector3d.squaredNorm, Vector3d.dot]

theorem sample_bbox_squaredNorm :
    Vector3d.squaredNorm (sampleBBox.minCoords - sampleBBox.maxCoords) = 9 := by
  norm_num [sampleBBox, BBox.minCoords, BBox.maxCoords, Vector3d.squaredNorm, Vector3d.dot]

theorem sample_edge_sqrt : IsSqrtAt Rat.sqrt (Vector3d.squaredNorm (sampleEdge.e1 - sampleEdge.e0)) := by
  rw [sample_edge_squaredNorm, IsSqrtAt, ratSqrt_one]
  norm_num

theorem sample_bbox_sqrt :
    IsSqrtAt Rat.sqrt (Vector3d.squaredNorm (sampleBBox.minCoords - sampleBBox.maxCoords)) := by
  rw [sample_bbox_squaredNorm, IsSqrtAt, ratSqrt_nine]
  norm_num

/-- The corners the code computes on the sample input. -/
theorem sample_edgeCorners :
    edgeCorners Rat.sqrt sampleEdge sampleNormal sampleBBox
      = ⟨⟨-3, 0, 3⟩, ⟨-3, 0, -3⟩, ⟨4, 0, -3⟩, ⟨4, 0, 3⟩⟩ := by
  simp only [edgeCorners, normalized_of_ne Rat.sqrt sample_ne, dist_diag, dist, Vector3d.norm,
    sample_edge_squaredNorm, sample_bbox_squaredNorm, ratSqrt_one, ratSqrt_nine]
  norm_num [sampleEdge, sampleNormal, Plane.ext_iff, Vector3d.ext_iff]

/-- Witness for C2: the sample edge, normal and box over `ℚ`, where
`dist_diag = 3` and the edge has length 1. -/
theorem C2_edge_constructor_corners_witness :
    sampleEdge.e0 ≠ sampleEdge.e1 ∧
    Plane.fromEdge Rat.sqrt sampleEdge sampleNormal sampleBBox
      = some (edgeCornersSpec Rat.sqrt sampleEdge sampleNormal sampleBBox) :=
  ⟨sample_ne, (C2_edge_constructor_corners Rat.sqrt sampleEdge sampleNormal sampleBBox
    sample_ne).2⟩

theorem IsSqrtAt.pos {sqrt : K → K} {x : K} (h : IsSqrtAt sqrt x) (hx : 0 < x) :
    0 < sqrt x := by
  rcases lt_or_eq_of_le h.1 with hpos | hzero
  · exact hpos
  · exfalso
    have h2 := h.2
    rw [← hzero] at h2
    simp at h2
    exact absurd h2.symm (ne_of_gt hx)

/-- A point on the segment joining the midpoints of `p0 p1` and `p2 p3` is a
convex combination of the four corners. -/
theorem isConvexComb_of_onSegment (pl : Plane K) (v : Vector3d K)
    (h : OnSegment (midpoint pl.p0 pl.p1) (midpoint pl.p2 pl.p3) v) : IsConvexComb pl v := by
  obtain ⟨t, ht0, ht1, hv⟩ := h
  refine ⟨(1 - t) / 2, (1 - t) / 2, t / 2, t / 2, ?_, ?_, ?_, ?_, ?_, ?_⟩
  · linarith
  · linarith
  · linarith
  · linarith
  · ring
  · rw [hv]
    ext <;> simp only [midpoint, Vector3d.add_x, Vector3d.add_y, Vector3d.add_z,
      Vector3d.smul_x, Vector3d.smul_y, Vector3d.smul_z] <;> ring

/-- The input edge lies on the mid-line of the quadrilateral built by the
edge/normal constructor. -/
theorem edge_onSegment (sqrt : K → K) (e : Edge K) (n : Vector3d K) (bbox : BBox K)
    (hne : e.e0 ≠ e.e1)
    (hL : IsSqrtAt sqrt (Vector3d.squaredNorm (e.e1 - e.e0)))
    (hD : IsSqrtAt sqrt (Vector3d.squaredNorm (bbox.minCoords - bbox.maxCoords))) :
    OnSegment (midpoint (edgeCorners sqrt e n bbox).p0 (edgeCorners sqrt e n bbox).p1)
        (midpoint (edgeCorners sqrt e n bbox).p2 (edgeCorners sqrt e n bbox).p3) e.e0 ∧
      OnSegment (midpoint (edgeCorners sqrt e n bbox).p0 (edgeCorners sqrt e n bbox).p1)
        (midpoint (edgeCorners sqrt e n bbox).p2 (edgeCorners sqrt e n bbox).p3) e.e1 := by
  have hLpos := hL.pos (squaredNorm_sub_pos hne)
  have hD0 := hD.1
  simp only [edgeCorners, normalized_of_ne sqrt hne, dist_diag, dist, Vector3d.norm]
  set L := sqrt (Vector3d.squaredNorm (e.e1 - e.e0)) with hLdef
  set dd := sqrt (Vector3d.squaredNorm (bbox.minCoords - bbox.maxCoords)) with hdd
  have hden : 0 < L + 2 * dd := by linarith
  have hLne : L ≠ 0 := ne_of_gt hLpos
  have hdne : L + 2 * dd ≠ 0 := ne_of_gt hden
  constructor
  · refine ⟨dd / (L + 2 * dd), div_nonneg hD0 hden.le, ?_, ?_⟩
    · rw [div_le_one hden]; linarith
    · ext <;> simp only [midpoint, Vector3d.add_x, Vector3d.add_y, Vector3d.add_z,
        Vector3d.sub_x, Vector3d.sub_y, Vector3d.sub_z, Vector3d.smul_x, Vector3d.smul_y,
        Vector3d.smul_z, Vector3d.sdiv_x, Vector3d.sdiv_y, Vector3d.sdiv_z] <;>
        field_simp <;> ring
  · refine ⟨(L + dd) / (L + 2 * dd), div_nonneg (by linarith) hden.le, ?_, ?_⟩
    · rw [div_le_one hden]; linarith
    · ext <;> simp only [midpoint, Vector3d.add_x, Vector3d.add_y, Vector3d.add_z,
        Vector3d.sub_x, Vector3d.sub_y, Vector3d.sub_z, Vector3d.smul_x, Vector3d.smul_y,
        Vector3d.smul_z, Vector3d.sdiv_x, Vector3d.sdiv_y, Vector3d.sdiv_z] <;>
        field_simp <;> ring

/-- C3: for a non-degenerate edge, every normal and every bounding box, the
quadrilateral built by the edge/normal constructor contains the input edge:
`e0` and `e1` lie on the segment joining the midpoint of `p0, p1` to the
midpoint of `p2, p3`, and each is a convex combination of the four corners. -/
theorem C3_quad_contains_edge (sqrt : K → K) (e : Edge K) (n : Vector3d K) (bbox : BBox K)
    (hne : e.e0 ≠ e.e1)
    (hL : IsSqrtAt sqrt (Vector3d.squaredNorm (e.e1 - e.e0)))
    (hD : IsSqrtAt sqrt (Vector3d.squaredNorm (bbox.minCoords - bbox.maxCoords))) :
    ∃ pl : Plane K, Plane.fromEdge sqrt e n bbox = some pl ∧
      OnSegment (midpoint pl.p0 pl.p1) (midpoint pl.p2 pl.p3) e.e0 ∧
      OnSegment (midpoint pl.p0 pl.p1) (midpoint pl.p2 pl.p3) e.e1 ∧
      IsConvexComb pl e.e0 ∧ IsConvexComb pl e.e1 := by
  have h := edge_onSegment sqrt e n bbox hne hL hD
  exact ⟨edgeCorners sqrt e n bbox, fromEdge_eq sqrt e n bbox, h.1, h.2,
    isConvexComb_of_onSegment _ _ h.1, isConvexComb_of_onSegment _ _ h.2⟩

/-- Witness for C3 on the sample input over `ℚ`. -/
theorem C3_quad_contains_edge_witness :
    sampleEdge.e0 ≠ sampleEdge.e1 ∧
    IsSqrtAt Rat.sqrt (Vector3d.squaredNorm (sampleEdge.e1 - sampleEdge.e0)) ∧
    IsSqrtAt Rat.sqrt (Vector3d.squaredNorm (sampleBBox.minCoords - sampleBBox.maxCoords)) ∧
    ∃ pl : Plane ℚ, Plane.fromEdge Rat.sqrt sampleEdge sampleNormal sampleBBox = some pl ∧
      OnSegment (midpoint pl.p0 pl.p1) (midpoint pl.p2 pl.p3) sampleEdge.e0 ∧
      OnSegment (midpoint pl.p0 pl.p1) (midpoint pl.p2 pl.p3) sampleEdge.e1 ∧
      IsConvexComb pl sampleEdge.e0 ∧ IsConvexComb pl sampleEdge.e1 :=
  ⟨sample_ne, sample_edge_sqrt, sample_bbox_sqrt,
    C3_quad_contains_edge Rat.sqrt sampleEdge sampleNormal sampleBBox sample_ne
      sample_edge_sqrt sample_bbox_sqrt⟩

theorem cauchy_schwarz (u w : Vector3d K) :
    Vector3d.dot u w * Vector3d.dot u w ≤ Vector3d.dot u u * Vector3d.dot w w := by
  simp only [Vector3d.dot]
  nlinarith [mul_self_nonneg (u.x * w.y - u.y * w.x), mul_self_nonneg (u.x * w.z - u.z * w.x),
    mul_self_nonneg (u.y * w.z - u.z * w.y)]

theorem abs_bound_of_mul_self_le {t dd : K} (hdd : 0 ≤ dd) (h : t * t ≤ dd * dd) :
    -dd ≤ t ∧ t ≤ dd := by
  constructor
  · by_contra hc
    push_neg at hc
    nlinarith
  · by_contra hc
    push_neg at hc
    nlinarith

/-- Two points of a box are no further apart than the box's diagonal. -/
theorem squaredNorm_sub_le_diag (bbox : BBox K) (p q : Vector3d K) (hp : bbox.contains p)
    (hq : bbox.contains q) :
    Vector3d.squaredNorm (q - p) ≤ Vector3d.squaredNorm (bbox.minCoords - bbox.maxCoords) := by
  obtain ⟨h1, h2, h3, h4, h5, h6⟩ := hp
  obtain ⟨g1, g2, g3, g4, g5, g6⟩ := hq
  simp only [Vector3d.squaredNorm, Vector3d.dot, Vector3d.sub_x, Vector3d.sub_y, Vector3d.sub_z,
    BBox.minCoords, BBox.maxCoords]
  have hx : (q.x - p.x) * (q.x - p.x) ≤ (bbox.a - bbox.x) * (bbox.a - bbox.x) := by nlinarith
  have hy : (q.y - p.y) * (q.y - p.y) ≤ (bbox.b - bbox.y) * (bbox.b - bbox.y) := by nlinarith
  have hz : (q.z - p.z) * (q.z - p.z) ≤ (bbox.c - bbox.z) * (bbox.c - bbox.z) := by nlinarith
  linarith

theorem dot_comm (u w : Vector3d K) : Vector3d.dot u w = Vector3d.dot w u := by
  simp only [Vector3d.dot]; ring

/-- The covering argument for an orthonormal frame `d`, `n` at `e0`. -/
theorem cover_core (e0 e1 d n q : Vector3d K) (L dd : K) (hL : 0 < L) (hdd : 0 < dd)
    (hd : e1 = e0 + L • d) (hdd1 : Vector3d.dot d d = 1) (hnn : Vector3d.dot n n = 1)
    (hnd : Vector3d.dot n d = 0) (hw : Vector3d.squaredNorm (q - e0) ≤ dd * dd) :
    (-dd ≤ Vector3d.dot n (q - e0) ∧ Vector3d.dot n (q - e0) ≤ dd) ∧
    (-dd ≤ Vector3d.dot d (q - e0) ∧ Vector3d.dot d (q - e0) ≤ L + dd) ∧
    Vector3d.dot (q - planeProjection e0 d n q) d = 0 ∧
    Vector3d.dot (q - planeProjection e0 d n q) n = 0 ∧
    InQuad ⟨e0 - dd • d + dd • n, e0 - dd • d - dd • n, e1 + dd • d - dd • n,
      e1 + dd • d + dd • n⟩ (planeProjection e0 d n q) := by
  have hn := cauchy_schwarz n (q - e0)
  have hdq := cauchy_schwarz d (q - e0)
  rw [hnn, one_mul] at hn
  rw [hdd1, one_mul] at hdq
  have hw' : Vector3d.dot (q - e0) (q - e0) ≤ dd * dd := hw
  have bn := abs_bound_of_mul_self_le hdd.le (le_trans hn hw')
  have bd := abs_bound_of_mul_self_le hdd.le (le_trans hdq hw')
  have hden : 0 < L + 2 * dd := by linarith
  refine ⟨bn, ⟨bd.1, by linarith [bd.2]⟩, ?_, ?_, ?_⟩
  · simp only [Vector3d.dot, planeProjection, Vector3d.sub_x, Vector3d.sub_y, Vector3d.sub_z,
      Vector3d.add_x, Vector3d.add_y, Vector3d.add_z, Vector3d.smul_x, Vector3d.smul_y,
      Vector3d.smul_z] at hdd1 hnd ⊢
    linear_combination
      (-(d.x * (q.x - e0.x) + d.y * (q.y - e0.y) + d.z * (q.z - e0.z))) * hdd1
      - (n.x * (q.x - e0.x) + n.y * (q.y - e0.y) + n.z * (q.z - e0.z)) * hnd
  · simp only [Vector3d.dot, planeProjection, Vector3d.sub_x, Vector3d.sub_y, Vector3d.sub_z,
      Vector3d.add_x, Vector3d.add_y, Vector3d.add_z, Vector3d.smul_x, Vector3d.smul_y,
      Vector3d.smul_z] at hnn hnd ⊢
    linear_combination
      (-(n.x * (q.x - e0.x) + n.y * (q.y - e0.y) + n.z * (q.z - e0.z))) * hnn
      - (d.x * (q.x - e0.x) + d.y * (q.y - e0.y) + d.z * (q.z - e0.z)) * hnd
  · refine ⟨(Vector3d.dot d (q - e0) + dd) / (L + 2 * dd),
      (Vector3d.dot n (q - e0) + dd) / (2 * dd), ?_, ?_, ?_, ?_, ?_⟩
    · exact div_nonneg (by linarith [bd.1]) hden.le
    · rw [div_le_one hden]; linarith [bd.2]
    · exact div_nonneg (by linarith [bn.1]) (by linarith)
    · rw [div_le_one (by linarith)]; linarith [bn.2]
    · have h2 : (2 * dd) ≠ 0 := by positivity
      have h3 : L + 2 * dd ≠ 0 := ne_of_gt hden
      rw [hd]
      unfold planeProjection
      generalize Vector3d.dot d (q - e0) = s
      generalize Vector3d.dot n (q - e0) = t
      ext <;> simp only [Vector3d.sub_x, Vector3d.sub_y, Vector3d.sub_z,
        Vector3d.add_x, Vector3d.add_y, Vector3d.add_z, Vector3d.smul_x, Vector3d.smul_y,
        Vector3d.smul_z] <;> field_simp <;> ring

theorem dot_sdiv_self (w : Vector3d K) (L : K) (hL : L ≠ 0)
    (h : L * L = Vector3d.squaredNorm w) :
    Vector3d.dot (Vector3d.sdiv w L) (Vector3d.sdiv w L) = 1 := by
  simp only [Vector3d.squaredNorm, Vector3d.dot] at h
  simp only [Vector3d.dot, Vector3d.sdiv_x, Vector3d.sdiv_y, Vector3d.sdiv_z]
  field_simp
  linear_combination -h

theorem dot_sdiv_of_perp (n w : Vector3d K) (L : K) (hL : L ≠ 0)
    (h : Vector3d.dot n w = 0) : Vector3d.dot n (Vector3d.sdiv w L) = 0 := by
  simp only [Vector3d.dot] at h
  simp only [Vector3d.dot, Vector3d.sdiv_x, Vector3d.sdiv_y, Vector3d.sdiv_z]
  field_simp
  linear_combination h

/-- C4: the quadrilateral built by the edge/normal constructor covers the
bounding box.  For a box with `min ≤ max`, a non-degenerate edge with both
endpoints in the box and a unit normal `n` perpendicular to the edge, every
point `q` of the box has its coordinate along `n` from `e0` within
`[-dist_diag, dist_diag]`, its coordinate along the edge direction within
`[-dist_diag, |e1 - e0| + dist_diag]`, and its orthogonal projection onto the
plane of the quadrilateral lies inside the quadrilateral. -/
theorem C4_quad_covers_bbox (sqrt : K → K) (e : Edge K) (n : Vector3d K) (bbox : BBox K)
    (q : Vector3d K)
    (hbox : bbox.a ≤ bbox.x ∧ bbox.b ≤ bbox.y ∧ bbox.c ≤ bbox.z)
    (he0 : bbox.contains e.e0) (he1 : bbox.contains e.e1) (hne : e.e0 ≠ e.e1)
    (hn : Vector3d.dot n n = 1) (hperp : Vector3d.dot n (e.e1 - e.e0) = 0)
    (hq : bbox.contains q)
    (hL : IsSqrtAt sqrt (Vector3d.squaredNorm (e.e1 - e.e0)))
    (hD : IsSqrtAt sqrt (Vector3d.squaredNorm (bbox.minCoords - bbox.maxCoords))) :
    ∃ pl : Plane K, Plane.fromEdge sqrt e n bbox = some pl ∧
      (-dist_diag sqrt bbox ≤ Vector3d.dot n (q - e.e0) ∧
        Vector3d.dot n (q - e.e0) ≤ dist_diag sqrt bbox) ∧
      (-dist_diag sqrt bbox ≤ Vector3d.dot (Vector3d.normalized sqrt (e.e1 - e.e0)) (q - e.e0) ∧
        Vector3d.dot (Vector3d.normalized sqrt (e.e1 - e.e0)) (q - e.e0)
          ≤ Vector3d.norm sqrt (e.e1 - e.e0) + dist_diag sqrt bbox) ∧
      Vector3d.dot (q - planeProjection e.e0 (Vector3d.normalized sqrt (e.e1 - e.e0)) n q)
        (Vector3d.normalized sqrt (e.e1 - e.e0)) = 0 ∧
      Vector3d.dot (q - planeProjection e.e0 (Vector3d.normalized sqrt (e.e1 - e.e0)) n q) n = 0 ∧
      InQuad pl (planeProjection e.e0 (Vector3d.normalized sqrt (e.e1 - e.e0)) n q) := by
  have _ := hbox
  have hzE := squaredNorm_sub_pos hne
  have hLpos := hL.pos hzE
  have hzB : 0 < Vector3d.squaredNorm (bbox.minCoords - bbox.maxCoords) :=
    lt_of_lt_of_le hzE (squaredNorm_sub_le_diag bbox e.e0 e.e1 he0 he1)
  have hDpos := hD.pos hzB
  have hLne : sqrt (Vector3d.squaredNorm (e.e1 - e.e0)) ≠ 0 := ne_of_gt hLpos
  have hw : Vector3d.squaredNorm (q - e.e0)
      ≤ dist_diag sqrt bbox * dist_diag sqrt bbox := by
    have h := squaredNorm_sub_le_diag bbox e.e0 q he0 hq
    simp only [dist_diag, dist, Vector3d.norm]
    rw [hD.2]
    exact h
  have hd : e.e1 = e.e0 + Vector3d.norm sqrt (e.e1 - e.e0) •
      Vector3d.normalized sqrt (e.e1 - e.e0) := by
    rw [normalized_of_ne sqrt hne]
    ext <;> simp only [Vector3d.norm, Vector3d.add_x, Vector3d.add_y, Vector3d.add_z,
      Vector3d.smul_x, Vector3d.smul_y, Vector3d.smul_z, Vector3d.sdiv_x, Vector3d.sdiv_y,
      Vector3d.sdiv_z, Vector3d.sub_x, Vector3d.sub_y, Vector3d.sub_z] <;> field_simp
  have hdd1 : Vector3d.dot (Vector3d.normalized sqrt (e.e1 - e.e0))
      (Vector3d.normalized sqrt (e.e1 - e.e0)) = 1 := by
    rw [normalized_of_ne sqrt hne]
    exact dot_sdiv_self _ _ hLne hL.2
  have hnd : Vector3d.dot n (Vector3d.normalized sqrt (e.e1 - e.e0)) = 0 := by
    rw [normalized_of_ne sqrt hne]
    exact dot_sdiv_of_perp _ _ _ hLne hperp
  have hDpos' : 0 < dist_diag sqrt bbox := hDpos
  have hLpos' : 0 < Vector3d.norm sqrt (e.e1 - e.e0) := hLpos
  obtain ⟨b1, b2, o1, o2, hin⟩ := cover_core e.e0 e.e1
    (Vector3d.normalized sqrt (e.e1 - e.e0)) n q (Vector3d.norm sqrt (e.e1 - e.e0))
    (dist_diag sqrt bbox) hLpos' hDpos' hd hdd1 hn hnd hw
  exact ⟨edgeCorners sqrt e n bbox, fromEdge_eq sqrt e n bbox, b1, b2, o1, o2, hin⟩

/-- Witness for C4: the sample edge, normal and box over `ℚ`, with the box
corner `(1,2,2)` as the point to cover. -/
theorem C4_quad_covers_bbox_witness :
    (sampleBBox.a ≤ sampleBBox.x ∧ sampleBBox.b ≤ sampleBBox.y ∧ sampleBBox.c ≤ sampleBBox.z) ∧
    sampleBBox.contains sampleEdge.e0 ∧ sampleBBox.contains sampleEdge.e1 ∧
    sampleEdge.e0 ≠ sampleEdge.e1 ∧
    Vector3d.dot sampleNormal sampleNormal = 1 ∧
    Vector3d.dot sampleNormal (sampleEdge.e1 - sampleEdge.e0) = 0 ∧
    sampleBBox.contains samplePoint ∧
    ∃ pl : Plane ℚ, Plane.fromEdge Rat.sqrt sampleEdge sampleNormal sampleBBox = some pl ∧
      (-dist_diag Rat.sqrt sampleBBox ≤ Vector3d.dot sampleNormal (samplePoint - sampleEdge.e0) ∧
        Vector3d.dot sampleNormal (samplePoint - sampleEdge.e0) ≤ dist_diag Rat.sqrt sampleBBox) ∧
      (-dist_diag Rat.sqrt sampleBBox ≤
          Vector3d.dot (Vector3d.normalized Rat.sqrt (sampleEdge.e1 - sampleEdge.e0))
            (samplePoint - sampleEdge.e0) ∧
        Vector3d.dot (Vector3d.normalized Rat.sqrt (sampleEdge.e1 - sampleEdge.e0))
            (samplePoint - sampleEdge.e0)
          ≤ Vector3d.norm Rat.sqrt (sampleEdge.e1 - sampleEdge.e0) + dist_diag Rat.sqrt sampleBBox) ∧
      Vector3d.dot (samplePoint - planeProjection sampleEdge.e0
          (Vector3d.normalized Rat.sqrt (sampleEdge.e1 - sampleEdge.e0)) sampleNormal samplePoint)
        (Vector3d.normalized Rat.sqrt (sampleEdge.e1 - sampleEdge.e0)) = 0 ∧
      Vector3d.dot (samplePoint - planeProjection sampleEdge.e0
          (Vector3d.normalized Rat.sqrt (sampleEdge.e1 - sampleEdge.e0)) sampleNormal samplePoint)
        sampleNormal = 0 ∧
      InQuad pl (planeProjection sampleEdge.e0
        (Vector3d.normalized Rat.sqrt (sampleEdge.e1 - sampleEdge.e0)) sampleNormal samplePoint) := by
  have hbox : sampleBBox.a ≤ sampleBBox.x ∧ sampleBBox.b ≤ sampleBBox.y ∧
      sampleBBox.c ≤ sampleBBox.z := by norm_num [sampleBBox]
  have he0 : sampleBBox.contains sampleEdge.e0 := by
    norm_num [BBox.contains, sampleBBox, sampleEdge]
  have he1 : sampleBBox.contains sampleEdge.e1 := by
    norm_num [BBox.contains, sampleBBox, sampleEdge]
  have hn : Vector3d.dot sampleNormal sampleNormal = 1 := by
    norm_num [Vector3d.dot, sampleNormal]
  have hperp : Vector3d.dot sampleNormal (sampleEdge.e1 - sampleEdge.e0) = 0 := by
    norm_num [Vector3d.dot, sampleNormal, sampleEdge]
  have hq : sampleBBox.contains samplePoint := by
    norm_num [BBox.contains, sampleBBox, samplePoint]
  exact ⟨hbox, he0, he1, sample_ne, hn, hperp, hq,
    C4_quad_covers_bbox Rat.sqrt sampleEdge sampleNormal sampleBBox samplePoint hbox he0 he1
      sample_ne hn hperp hq sample_edge_sqrt sample_bbox_sqrt⟩

/-- The assertion of line 40 holds exactly when the determinant is below
`EPSILON`; no absolute value is taken. -/
theorem assertion_iff (pl : Plane K) : pl.assertion = true ↔ pl.det < EPSILON := by
  simp [Plane.assertion]

/-- C13 (what the code does): in double arithmetic, for the edge
`((0,0,0),(30,40,20))`, the normal `(0.8,-0.6,0)` and the bounding box
`(0,0,0)-(100,100,100)`, the corners the edge/normal constructor builds have
`det[(p1-p0), (p2-p0), (p3-p0)] = -2^-29`, about `-1.86e-9`: at most `-1e-9`
and of magnitude not below `1e-9`, yet the check
`mat.determinant() < EPSILON` passes and the constructor returns the plane. -/
theorem C13_negative_determinant_accepted_in_doubles :
    (edgeCorners Double.sqrt dblEdge dblNormal dblBBox100).det.val = -(1 / 536870912) ∧
    (edgeCorners Double.sqrt dblEdge dblNormal dblBBox100).det.val ≤ -(1 / 1000000000) ∧
    ¬ (|(edgeCorners Double.sqrt dblEdge dblNormal dblBBox100).det.val| < 1 / 1000000000) ∧
    (edgeCorners Double.sqrt dblEdge dblNormal dblBBox100).assertion = true ∧
    Plane.fromEdge Double.sqrt dblEdge dblNormal dblBBox100
      = some (edgeCorners Double.sqrt dblEdge dblNormal dblBBox100) := by
  have hdet : (edgeCorners Double.sqrt dblEdge dblNormal dblBBox100).det.val
      = -(1 / 536870912) := by decide!
  have hassert : (edgeCorners Double.sqrt dblEdge dblNormal dblBBox100).assertion = true := by
    decide!
  refine ⟨hdet, ?_, ?_, hassert, ?_⟩
  · rw [hdet]; norm_num
  · rw [hdet]; norm_num [abs_of_pos]
  · simp [Plane.fromEdge, hassert]

theorem ratSqrt_zero : Rat.sqrt 0 = 0 := by
  have h : Rat.sqrt (0 * 0) = |0| := Rat.sqrt_eq 0
  rw [show (0 : ℚ) * 0 = 0 by norm_num, show |(0 : ℚ)| = 0 by norm_num] at h
  exact h

theorem IsSqrtAt.zero {sqrt : K → K} (h : IsSqrtAt sqrt 0) : sqrt 0 = 0 :=
  mul_self_eq_zero.mp h.2

/-- With a box of zero diagonal the corners collapse onto the edge. -/
theorem edgeCorners_of_zero_diag (sqrt : K → K) (e : Edge K) (n : Vector3d K) (bbox : BBox K)
    (hdd : dist_diag sqrt bbox = 0) :
    edgeCorners sqrt e n bbox = ⟨e.e0, e.e0, e.e1, e.e1⟩ := by
  simp only [edgeCorners, hdd, Plane.mk.injEq]
  refine ⟨?_, ?_, ?_, ?_⟩ <;> ext <;>
    simp only [Vector3d.sub_x, Vector3d.sub_y, Vector3d.sub_z, Vector3d.add_x, Vector3d.add_y,
      Vector3d.add_z, Vector3d.smul_x, Vector3d.smul_y, Vector3d.smul_z] <;> ring

theorem dist_diag_of_min_eq_max (sqrt : K → K) (bbox : BBox K)
    (hbox : bbox.minCoords = bbox.maxCoords) (h0 : IsSqrtAt sqrt 0) :
    dist_diag sqrt bbox = 0 := by
  have hz : Vector3d.squaredNorm (bbox.minCoords - bbox.maxCoords) = 0 := by
    rw [hbox]
    simp only [Vector3d.squaredNorm, Vector3d.dot, Vector3d.sub_x, Vector3d.sub_y,
      Vector3d.sub_z]
    ring
  simp only [dist_diag, dist, Vector3d.norm, hz]
  exact h0.zero

/-- C14, as stated, fails: for the box `min = max = (1,1,1)`, the edge
`((0,0,0),(1,0,0))` and the normal `(0,0,1)` the constructor's assertion passes
and the constructor returns a plane, with `p0 = p1 = e0` and `p2 = p3 = e1`. -/
theorem C14_counterexample :
    pointBBox.minCoords = pointBBox.maxCoords ∧
    dist_diag Rat.sqrt pointBBox = 0 ∧
    Plane.fromEdge Rat.sqrt sampleEdge sampleNormal pointBBox
      = some ⟨⟨0, 0, 0⟩, ⟨0, 0, 0⟩, ⟨1, 0, 0⟩, ⟨1, 0, 0⟩⟩ ∧
    Plane.fromEdge Rat.sqrt sampleEdge sampleNormal pointBBox ≠ none := by
  have h0 : IsSqrtAt Rat.sqrt 0 := by
    rw [IsSqrtAt, ratSqrt_zero]; norm_num
  have hdd := dist_diag_of_min_eq_max Rat.sqrt pointBBox rfl h0
  have hpl : Plane.fromEdge Rat.sqrt sampleEdge sampleNormal pointBBox
      = some ⟨⟨0, 0, 0⟩, ⟨0, 0, 0⟩, ⟨1, 0, 0⟩, ⟨1, 0, 0⟩⟩ := by
    rw [fromEdge_eq, edgeCorners_of_zero_diag _ _ _ _ hdd]
    rfl
  refine ⟨rfl, hdd, hpl, ?_⟩
  rw [hpl]
  exact Option.some_ne_none _

/-- C14, amended: for every bounding box with `min = max` (so `dist_diag = 0`),
every edge and every normal, the edge/normal constructor does not reject the
input: its assertion passes and it returns the plane with `p0 = p1 = e0` and
`p2 = p3 = e1`. -/
theorem C14_zero_diagonal_accepted (sqrt : K → K) (e : Edge K) (n : Vector3d K)
    (bbox : BBox K) (hbox : bbox.minCoords = bbox.maxCoords) (h0 : IsSqrtAt sqrt 0) :
    dist_diag sqrt bbox = 0 ∧
    (edgeCorners sqrt e n bbox).assertion = true ∧
    Plane.fromEdge sqrt e n bbox = some ⟨e.e0, e.e0, e.e1, e.e1⟩ := by
  have hdd := dist_diag_of_min_eq_max sqrt bbox hbox h0
  refine ⟨hdd, ?_, ?_⟩
  · rw [assertion_iff, edgeCorners_det]
    exact EPSILON_pos
  · rw [fromEdge_eq, edgeCorners_of_zero_diag _ _ _ _ hdd]

/-- Witness for the amended C14: the box `min = max = (1,1,1)` over `ℚ`. -/
theorem C14_zero_diagonal_accepted_witness :
    pointBBox.minCoords = pointBBox.maxCoords ∧ IsSqrtAt Rat.sqrt 0 ∧
    dist_diag Rat.sqrt pointBBox = 0 ∧
    (edgeCorners Rat.sqrt sampleEdge sampleNormal pointBBox).assertion = true ∧
    Plane.fromEdge Rat.sqrt sampleEdge sampleNormal pointBBox
      = some ⟨sampleEdge.e0, sampleEdge.e0, sampleEdge.e1, sampleEdge.e1⟩ := by
  have h0 : IsSqrtAt Rat.sqrt 0 := by
    rw [IsSqrtAt, ratSqrt_zero]; norm_num
  exact ⟨rfl, h0, C14_zero_diagonal_accepted Rat.sqrt sampleEdge sampleNormal pointBBox rfl h0⟩

theorem dot_smul_smul (a b : K) (u v : Vector3d K) :
    Vector3d.dot (a • u) (b • v) = a * b * Vector3d.dot u v := by
  simp only [Vector3d.dot, Vector3d.smul_x, Vector3d.smul_y, Vector3d.smul_z]
  ring

/-- The quadrilateral of the edge/normal constructor is a parallelogram. -/
theorem edgeCorners_parallelogram (sqrt : K → K) (e : Edge K) (n : Vector3d K)
    (bbox : BBox K) :
    (edgeCorners sqrt e n bbox).p0 - (edgeCorners sqrt e n bbox).p1
        = (2 * dist_diag sqrt bbox) • n ∧
      (edgeCorners sqrt e n bbox).p3 - (edgeCorners sqrt e n bbox).p2
        = (2 * dist_diag sqrt bbox) • n ∧
      (edgeCorners sqrt e n bbox).p3 - (edgeCorners sqrt e n bbox).p0
        = (edgeCorners sqrt e n bbox).p2 - (edgeCorners sqrt e n bbox).p1 := by
  refine ⟨?_, ?_, ?_⟩ <;> ext <;>
    simp only [edgeCorners, Vector3d.sub_x, Vector3d.sub_y, Vector3d.sub_z, Vector3d.add_x,
      Vector3d.add_y, Vector3d.add_z, Vector3d.smul_x, Vector3d.smul_y, Vector3d.smul_z] <;>
    ring

/-- The long side of the quadrilateral, for a non-degenerate edge. -/
theorem edgeCorners_long_side (sqrt : K → K) (e : Edge K) (n : Vector3d K) (bbox : BBox K)
    (hne : e.e0 ≠ e.e1) (hL : IsSqrtAt sqrt (Vector3d.squaredNorm (e.e1 - e.e0))) :
    (edgeCorners sqrt e n bbox).p2 - (edgeCorners sqrt e n bbox).p1
      = (Vector3d.norm sqrt (e.e1 - e.e0) + 2 * dist_diag sqrt bbox) •
        Vector3d.sdiv (e.e1 - e.e0) (sqrt (Vector3d.squaredNorm (e.e1 - e.e0))) := by
  have hLne : sqrt (Vector3d.squaredNorm (e.e1 - e.e0)) ≠ 0 :=
    ne_of_gt (hL.pos (squaredNorm_sub_pos hne))
  simp only [edgeCorners, normalized_of_ne sqrt hne, Vector3d.norm]
  generalize sqrt (Vector3d.squaredNorm (e.e1 - e.e0)) = L at hLne
  ext <;>
    simp only [Vector3d.sub_x, Vector3d.sub_y, Vector3d.sub_z, Vector3d.add_x,
      Vector3d.add_y, Vector3d.add_z, Vector3d.smul_x, Vector3d.smul_y, Vector3d.smul_z,
      Vector3d.sdiv_x, Vector3d.sdiv_y, Vector3d.sdiv_z] <;>
    field_simp <;> ring

/-- C19: the quadrilateral built by the edge/normal constructor is a
parallelogram, `p0 - p1 = p3 - p2 = 2*dist_diag*n` and `p3 - p0 = p2 - p1`; for a
non-degenerate edge of length `L` and a unit normal perpendicular to it, it is
a rectangle (the sides at `p1` are perpendicular) with side lengths
`2*dist_diag` and `L + 2*dist_diag`. -/
theorem C19_quad_is_parallelogram (sqrt : K → K) (e : Edge K) (n : Vector3d K)
    (bbox : BBox K) :
    ∃ pl : Plane K, Plane.fromEdge sqrt e n bbox = some pl ∧
      pl.p0 - pl.p1 = (2 * dist_diag sqrt bbox) • n ∧
      pl.p3 - pl.p2 = (2 * dist_diag sqrt bbox) • n ∧
      pl.p3 - pl.p0 = pl.p2 - pl.p1 ∧
      (e.e0 ≠ e.e1 → Vector3d.dot n n = 1 → Vector3d.dot n (e.e1 - e.e0) = 0 →
        IsSqrtAt sqrt (Vector3d.squaredNorm (e.e1 - e.e0)) →
        IsSqrtAt sqrt (Vector3d.squaredNorm (bbox.minCoords - bbox.maxCoords)) →
        Vector3d.dot (pl.p0 - pl.p1) (pl.p2 - pl.p1) = 0 ∧
        Vector3d.squaredNorm (pl.p0 - pl.p1)
          = (2 * dist_diag sqrt bbox) * (2 * dist_diag sqrt bbox) ∧
        0 ≤ 2 * dist_diag sqrt bbox ∧
        Vector3d.squaredNorm (pl.p2 - pl.p1)
          = (Vector3d.norm sqrt (e.e1 - e.e0) + 2 * dist_diag sqrt bbox)
            * (Vector3d.norm sqrt (e.e1 - e.e0) + 2 * dist_diag sqrt bbox) ∧
        0 ≤ Vector3d.norm sqrt (e.e1 - e.e0) + 2 * dist_diag sqrt bbox) := by
  obtain ⟨h1, h2, h3⟩ := edgeCorners_parallelogram sqrt e n bbox
  refine ⟨edgeCorners sqrt e n bbox, fromEdge_eq sqrt e n bbox, h1, h2, h3, ?_⟩
  intro hne hn hperp hL hD
  have hLpos := hL.pos (squaredNorm_sub_pos hne)
  have hLne : sqrt (Vector3d.squaredNorm (e.e1 - e.e0)) ≠ 0 := ne_of_gt hLpos
  have hD0 : 0 ≤ dist_diag sqrt bbox := hD.1
  have hLpos' : 0 < Vector3d.norm sqrt (e.e1 - e.e0) := hLpos
  rw [h1, edgeCorners_long_side sqrt e n bbox hne hL]
  refine ⟨?_, ?_, by linarith, ?_, by linarith⟩
  · rw [dot_smul_smul, dot_sdiv_of_perp _ _ _ hLne hperp, mul_zero]
  · rw [Vector3d.squaredNorm, dot_smul_smul, hn, mul_one]
  · rw [Vector3d.squaredNorm, dot_smul_smul, dot_sdiv_self _ _ hLne hL.2, mul_one]

/-- Witness for C19 on the sample input over `ℚ`: the rectangle has the
perpendicular sides `p0 - p1` and `p2 - p1`. -/
theorem C19_quad_is_parallelogram_witness :
    sampleEdge.e0 ≠ sampleEdge.e1 ∧
    Vector3d.dot sampleNormal sampleNormal = 1 ∧
    Vector3d.dot sampleNormal (sampleEdge.e1 - sampleEdge.e0) = 0 ∧
    IsSqrtAt Rat.sqrt (Vector3d.squaredNorm (sampleEdge.e1 - sampleEdge.e0)) ∧
    IsSqrtAt Rat.sqrt (Vector3d.squaredNorm (sampleBBox.minCoords - sampleBBox.maxCoords)) ∧
    ∃ pl : Plane ℚ, Plane.fromEdge Rat.sqrt sampleEdge sampleNormal sampleBBox = some pl ∧
      pl.p0 - pl.p1 = (2 * dist_diag Rat.sqrt sampleBBox) • sampleNormal ∧
      pl.p3 - pl.p0 = pl.p2 - pl.p1 ∧
      Vector3d.dot (pl.p0 - pl.p1) (pl.p2 - pl.p1) = 0 ∧
      Vector3d.squaredNorm (pl.p0 - pl.p1)
        = (2 * dist_diag Rat.sqrt sampleBBox) * (2 * dist_diag Rat.sqrt sampleBBox) ∧
      Vector3d.squaredNorm (pl.p2 - pl.p1)
        = (Vector3d.norm Rat.sqrt (sampleEdge.e1 - sampleEdge.e0)
            + 2 * dist_diag Rat.sqrt sampleBBox)
          * (Vector3d.norm Rat.sqrt (sampleEdge.e1 - sampleEdge.e0)
            + 2 * dist_diag Rat.sqrt sampleBBox) := by
  have hn : Vector3d.dot sampleNormal sampleNormal = 1 := by
    norm_num [Vector3d.dot, sampleNormal]
  have hperp : Vector3d.dot sampleNormal (sampleEdge.e1 - sampleEdge.e0) = 0 := by
    norm_num [Vector3d.dot, sampleNormal, sampleEdge]
  obtain ⟨pl, hpl, h1, _, h3, hrect⟩ :=
    C19_quad_is_parallelogram Rat.sqrt sampleEdge sampleNormal sampleBBox
  obtain ⟨r1, r2, _, r4, _⟩ := hrect sample_ne hn hperp sample_edge_sqrt sample_bbox_sqrt
  exact ⟨sample_ne, hn, hperp, sample_edge_sqrt, sample_bbox_sqrt, pl, hpl, h1, h3, r1, r2, r4⟩

theorem IsSqrtAt.one {sqrt : K → K} (h : IsSqrtAt sqrt 1) : sqrt 1 = 1 := by
  obtain ⟨h0, h2⟩ := h
  have hprod : (sqrt 1 - 1) * (sqrt 1 + 1) = 0 := by linear_combination h2
  rcases mul_eq_zero.mp hprod with h | h
  · linarith
  · linarith

theorem realSqrt_isSqrtAt (x : ℝ) (hx : 0 ≤ x) : IsSqrtAt Real.sqrt x :=
  ⟨Real.sqrt_nonneg x, Real.mul_self_sqrt hx⟩

/-- The scenario evaluated: the diagonal is the square root of 17, the corners
are `(∓dd, 0, ±dd)` and `(1 ± dd, 0, ∓dd)`, and the quadrilateral passes each
endpoint of the edge by exactly `dist_diag` along the edge direction. -/
theorem scenario_core (sqrt : K → K) (h1 : IsSqrtAt sqrt 1) (h17 : IsSqrtAt sqrt 17) :
    dist_diag sqrt (scenarioBBox K) = sqrt 17 ∧
    (412 / 100 < sqrt 17 ∧ sqrt 17 < 413 / 100) ∧
    Vector3d.normalized sqrt ((scenarioEdge K).e1 - (scenarioEdge K).e0) = ⟨1, 0, 0⟩ ∧
    edgeCorners sqrt (scenarioEdge K) (scenarioNormal K) (scenarioBBox K)
      = ⟨⟨-sqrt 17, 0, sqrt 17⟩, ⟨-sqrt 17, 0, -sqrt 17⟩, ⟨1 + sqrt 17, 0, -sqrt 17⟩,
        ⟨1 + sqrt 17, 0, sqrt 17⟩⟩ := by
  have hdd : dist_diag sqrt (scenarioBBox K) = sqrt 17 := by
    simp only [dist_diag, dist, Vector3d.norm, Vector3d.squaredNorm, Vector3d.dot,
      scenarioBBox, BBox.minCoords, BBox.maxCoords, Vector3d.sub_x, Vector3d.sub_y,
      Vector3d.sub_z]
    norm_num
  have hz : Vector3d.squaredNorm ((scenarioEdge K).e1 - (scenarioEdge K).e0) = 1 := by
    simp only [Vector3d.squaredNorm, Vector3d.dot, scenarioEdge, Vector3d.sub_x,
      Vector3d.sub_y, Vector3d.sub_z]
    norm_num
  have hnorm : Vector3d.normalized sqrt ((scenarioEdge K).e1 - (scenarioEdge K).e0)
      = ⟨1, 0, 0⟩ := by
    simp only [Vector3d.normalized, hz, h1.one]
    rw [if_pos one_pos]
    ext <;> simp [scenarioEdge]
  obtain ⟨hs0, hs2⟩ := h17
  refine ⟨hdd, ⟨?_, ?_⟩, hnorm, ?_⟩
  · by_contra hc
    push_neg at hc
    nlinarith
  · by_contra hc
    push_neg at hc
    nlinarith
  · simp only [edgeCorners, hnorm, hdd, Plane.mk.injEq]
    refine ⟨?_, ?_, ?_, ?_⟩ <;> ext <;>
      simp [scenarioEdge, scenarioNormal]

/-- C17, as stated, fails: in the scenario (over `ℝ` with the real square
root) the diagonal used as `dist_diag` exceeds `4.12`, so it is not about
`3.16`, and the quadrilateral passes the endpoint `e0` along the edge
direction by `dist_diag` exactly, not by more. -/
theorem C17_counterexample :
    (412 / 100 : ℝ) < dist_diag Real.sqrt (scenarioBBox ℝ) ∧
    Vector3d.dot (Vector3d.normalized Real.sqrt ((scenarioEdge ℝ).e1 - (scenarioEdge ℝ).e0))
        ((scenarioEdge ℝ).e0
          - (edgeCorners Real.sqrt (scenarioEdge ℝ) (scenarioNormal ℝ) (scenarioBBox ℝ)).p0)
      = dist_diag Real.sqrt (scenarioBBox ℝ) ∧
    ¬ (dist_diag Real.sqrt (scenarioBBox ℝ) <
      Vector3d.dot (Vector3d.normalized Real.sqrt ((scenarioEdge ℝ).e1 - (scenarioEdge ℝ).e0))
        ((scenarioEdge ℝ).e0
          - (edgeCorners Real.sqrt (scenarioEdge ℝ) (scenarioNormal ℝ) (scenarioBBox ℝ)).p0)) := by
  obtain ⟨hdd, ⟨hlo, _⟩, hnorm, hpl⟩ := scenario_core Real.sqrt
    (realSqrt_isSqrtAt 1 (by norm_num)) (realSqrt_isSqrtAt 17 (by norm_num))
  have hext : Vector3d.dot
      (Vector3d.normalized Real.sqrt ((scenarioEdge ℝ).e1 - (scenarioEdge ℝ).e0))
        ((scenarioEdge ℝ).e0
          - (edgeCorners Real.sqrt (scenarioEdge ℝ) (scenarioNormal ℝ) (scenarioBBox ℝ)).p0)
      = dist_diag Real.sqrt (scenarioBBox ℝ) := by
    rw [hnorm, hpl, hdd]
    simp [Vector3d.dot, scenarioEdge]
  refine ⟨by rw [hdd]; exact hlo, hext, ?_⟩
  rw [hext]
  exact lt_irrefl _

/-- C17, amended: in the scenario the constructor yields coplanar corners, the
diagonal used as `dist_diag` is the square root of 17, between `4.12` and
`4.13`, and the quadrilateral passes each endpoint of the edge, along the
edge direction `(1,0,0)`, by exactly `dist_diag`. -/
theorem C17_scenario (sqrt : K → K) (h1 : IsSqrtAt sqrt 1) (h17 : IsSqrtAt sqrt 17) :
    ∃ pl : Plane K,
      Plane.fromEdge sqrt (scenarioEdge K) (scenarioNormal K) (scenarioBBox K) = some pl ∧
      pl.det = 0 ∧
      dist_diag sqrt (scenarioBBox K) = sqrt 17 ∧
      412 / 100 < dist_diag sqrt (scenarioBBox K) ∧
      dist_diag sqrt (scenarioBBox K) < 413 / 100 ∧
      Vector3d.normalized sqrt ((scenarioEdge K).e1 - (scenarioEdge K).e0) = ⟨1, 0, 0⟩ ∧
      Vector3d.dot (Vector3d.normalized sqrt ((scenarioEdge K).e1 - (scenarioEdge K).e0))
        ((scenarioEdge K).e0 - pl.p0) = dist_diag sqrt (scenarioBBox K) ∧
      Vector3d.dot (Vector3d.normalized sqrt ((scenarioEdge K).e1 - (scenarioEdge K).e0))
        ((scenarioEdge K).e0 - pl.p1) = dist_diag sqrt (scenarioBBox K) ∧
      Vector3d.dot (Vector3d.normalized sqrt ((scenarioEdge K).e1 - (scenarioEdge K).e0))
        (pl.p2 - (scenarioEdge K).e1) = dist_diag sqrt (scenarioBBox K) ∧
      Vector3d.dot (Vector3d.normalized sqrt ((scenarioEdge K).e1 - (scenarioEdge K).e0))
        (pl.p3 - (scenarioEdge K).e1) = dist_diag sqrt (scenarioBBox K) := by
  obtain ⟨hdd, ⟨hlo, hhi⟩, hnorm, hpl⟩ := scenario_core sqrt h1 h17
  refine ⟨edgeCorners sqrt (scenarioEdge K) (scenarioNormal K) (scenarioBBox K),
    fromEdge_eq _ _ _ _, edgeCorners_det _ _ _ _, hdd, by rw [hdd]; exact hlo,
    by rw [hdd]; exact hhi, hnorm, ?_, ?_, ?_, ?_⟩ <;>
    rw [hnorm, hpl, hdd] <;> simp [Vector3d.dot, scenarioEdge]

/-- Witness for the amended C17: the real numbers with the real square root. -/
theorem C17_scenario_witness :
    IsSqrtAt Real.sqrt 1 ∧ IsSqrtAt Real.sqrt 17 ∧
    ∃ pl : Plane ℝ,
      Plane.fromEdge Real.sqrt (scenarioEdge ℝ) (scenarioNormal ℝ) (scenarioBBox ℝ) = some pl ∧
      pl.det = 0 ∧
      dist_diag Real.sqrt (scenarioBBox ℝ) = Real.sqrt 17 ∧
      412 / 100 < dist_diag Real.sqrt (scenarioBBox ℝ) ∧
      dist_diag Real.sqrt (scenarioBBox ℝ) < 413 / 100 := by
  have h1 := realSqrt_isSqrtAt 1 (by norm_num)
  have h17 := realSqrt_isSqrtAt 17 (by norm_num)
  obtain ⟨pl, hpl, hdet, hdd, hlo, hhi, _⟩ := C17_scenario Real.sqrt h1 h17
  exact ⟨h1, h17, pl, hpl, hdet, hdd, hlo, hhi⟩

end EdgeTheorems


section FileTheorems

variable {K : Type}

theorem mem_set_emplace {lt : Vector3d K → Vector3d K → Bool} (hlt : IsStrictTotal lt)
    (v u : Vector3d K) (s : List (Vector3d K)) :
    u ∈ set_emplace lt v s ↔ u = v ∨ u ∈ s := by
  induction s with
  | nil => simp [set_emplace]
  | cons h t ih =>
    unfold set_emplace
    split_ifs with h1 h2
    · simp
    · simp only [List.mem_cons, ih]
      tauto
    · have hv : v = h := hlt.total v h (by simpa using h1) (by simpa using h2)
      subst hv
      simp

theorem pairwise_set_emplace {lt : Vector3d K → Vector3d K → Bool} (hlt : IsStrictTotal lt)
    (v : Vector3d K) (s : List (Vector3d K)) (hs : s.Pairwise fun a b => lt a b = true) :
    (set_emplace lt v s).Pairwise fun a b => lt a b = true := by
  induction s with
  | nil => simp [set_emplace]
  | cons h t ih =>
    obtain ⟨hh, ht⟩ := List.pairwise_cons.1 hs
    unfold set_emplace
    split_ifs with h1 h2
    · refine List.pairwise_cons.2 ⟨?_, hs⟩
      intro a ha
      rcases List.mem_cons.1 ha with rfl | ha
      · exact h1
      · exact hlt.trans _ _ _ h1 (hh a ha)
    · refine List.pairwise_cons.2 ⟨?_, ih ht⟩
      intro a ha
      rcases (mem_set_emplace hlt v a t).1 ha with rfl | ha
      · exact h2
      · exact hh a ha
    · exact hs

theorem mem_foldl_emplace {lt : Vector3d K → Vector3d K → Bool} (hlt : IsStrictTotal lt)
    (u : Vector3d K) (vs acc : List (Vector3d K)) :
    u ∈ vs.foldl (fun s v => set_emplace lt v s) acc ↔ u ∈ vs ∨ u ∈ acc := by
  induction vs generalizing acc with
  | nil => simp
  | cons v vs ih =>
    simp only [List.foldl_cons, ih, mem_set_emplace hlt, List.mem_cons]
    tauto

theorem pairwise_foldl_emplace {lt : Vector3d K → Vector3d K → Bool} (hlt : IsStrictTotal lt)
    (vs acc : List (Vector3d K)) (hacc : acc.Pairwise fun a b => lt a b = true) :
    (vs.foldl (fun s v => set_emplace lt v s) acc).Pairwise fun a b => lt a b = true := by
  induction vs generalizing acc with
  | nil => simpa using hacc
  | cons v vs ih =>
    simp only [List.foldl_cons]
    exact ih _ (pairwise_set_emplace hlt v acc hacc)

/-- The set holds exactly the vertices inserted. -/
theorem mem_vertsSet {lt : Vector3d K → Vector3d K → Bool} (hlt : IsStrictTotal lt)
    (u : Vector3d K) (vs : List (Vector3d K)) : u ∈ vertsSet lt vs ↔ u ∈ vs := by
  simp [vertsSet, mem_foldl_emplace hlt]

/-- The set is strictly increasing for its comparator. -/
theorem pairwise_vertsSet {lt : Vector3d K → Vector3d K → Bool} (hlt : IsStrictTotal lt)
    (vs : List (Vector3d K)) : (vertsSet lt vs).Pairwise fun a b => lt a b = true :=
  pairwise_foldl_emplace hlt vs [] List.Pairwise.nil

theorem nodup_of_pairwise_lt {lt : Vector3d K → Vector3d K → Bool} (hlt : IsStrictTotal lt)
    {l : List (Vector3d K)} (h : l.Pairwise fun a b => lt a b = true) : l.Nodup := by
  refine List.Pairwise.imp ?_ h
  intro a b hab heq
  subst heq
  rw [hlt.irrefl] at hab
  exact Bool.noConfusion hab

theorem nodup_vertsSet {lt : Vector3d K → Vector3d K → Bool} (hlt : IsStrictTotal lt)
    (vs : List (Vector3d K)) : (vertsSet lt vs).Nodup :=
  nodup_of_pairwise_lt hlt (pairwise_vertsSet hlt vs)

/-- The set does not depend on the order or multiplicity of insertion. -/
theorem vertsSet_congr {lt : Vector3d K → Vector3d K → Bool} (hlt : IsStrictTotal lt)
    (vs ws : List (Vector3d K)) (h : ∀ v, v ∈ vs ↔ v ∈ ws) :
    vertsSet lt vs = vertsSet lt ws := by
  haveI : IsAntisymm (Vector3d K) (fun a b => lt a b = true) :=
    ⟨fun a b hab hba => by
      have haa := hlt.trans a b a hab hba
      rw [hlt.irrefl] at haa
      exact Bool.noConfusion haa⟩
  refine List.eq_of_perm_of_sorted ?_ (pairwise_vertsSet hlt vs) (pairwise_vertsSet hlt ws)
  rw [List.perm_ext_iff_of_nodup (nodup_vertsSet hlt vs) (nodup_vertsSet hlt ws)]
  intro a
  rw [mem_vertsSet hlt, mem_vertsSet hlt, h]

theorem collectVerts_toAttrib (lt : Vector3d K → Vector3d K → Bool)
    (vs acc : List (Vector3d K)) :
    collectVerts lt (toAttrib vs) acc = some (vs.foldl (fun s v => set_emplace lt v s) acc) := by
  induction vs generalizing acc with
  | nil => simp [toAttrib, collectVerts]
  | cons v vs ih => simp [toAttrib, collectVerts, ih]

/-- The loader on a parsed vertex list whose set has at least four elements. -/
theorem load_from_file_of_cons (lt : Vector3d K → Vector3d K → Bool) (vs : List (Vector3d K))
    (v0 v1 v2 v3 : Vector3d K) (rest : List (Vector3d K))
    (h : vertsSet lt vs = v0 :: v1 :: v2 :: v3 :: rest) :
    load_from_file lt true (toAttrib vs) = LoadResult.plane ⟨v0, v1, v2, v3⟩ := by
  have hc : collectVerts lt (toAttrib vs) [] = some (v0 :: v1 :: v2 :: v3 :: rest) := by
    rw [collectVerts_toAttrib]; exact congrArg some h
  simp [load_from_file, hc]

/-- The loader on a parsed vertex list whose set has fewer than four elements
reads past the end of `verts`. -/
theorem load_from_file_of_short (lt : Vector3d K → Vector3d K → Bool) (vs : List (Vector3d K))
    (h : (vertsSet lt vs).length < 4) :
    load_from_file lt true (toAttrib vs) = LoadResult.outOfBounds := by
  have hc : collectVerts lt (toAttrib vs) [] = some (vertsSet lt vs) := by
    rw [collectVerts_toAttrib]; rfl
  simp only [load_from_file, hc]
  match hs : vertsSet lt vs, h with
  | [], _ => simp
  | [_], _ => simp
  | [_, _], _ => simp
  | [_, _, _], _ => simp
  | _ :: _ :: _ :: _ :: _, h => simp at h; omega

theorem LoadObj_save_to_file (pl : Plane K) :
    LoadObj (save_to_file pl) = toAttrib pl.corners := rfl

theorem lexLt_iff [LinearOrder K] (u v : Vector3d K) :
    Vector3d.lexLt u v = true ↔
      toLex (u.x, toLex (u.y, u.z)) < toLex (v.x, toLex (v.y, v.z)) := by
  simp [Vector3d.lexLt, Prod.Lex.lt_iff]

/-- The lexicographic comparator is a strict total order. -/
theorem lexLt_isStrictTotal [LinearOrder K] :
    IsStrictTotal (Vector3d.lexLt : Vector3d K → Vector3d K → Bool) where
  irrefl a := by
    rw [Bool.eq_false_iff]
    intro h
    exact lt_irrefl _ ((lexLt_iff a a).1 h)
  trans a b c hab hbc :=
    (lexLt_iff a c).2 (lt_trans ((lexLt_iff a b).1 hab) ((lexLt_iff b c).1 hbc))
  total a b hab hba := by
    have h1 : ¬ toLex (a.x, toLex (a.y, a.z)) < toLex (b.x, toLex (b.y, b.z)) := by
      rw [← lexLt_iff, hab]; simp
    have h2 : ¬ toLex (b.x, toLex (b.y, b.z)) < toLex (a.x, toLex (a.y, a.z)) := by
      rw [← lexLt_iff, hba]; simp
    have heq := le_antisymm (not_lt.1 h2) (not_lt.1 h1)
    have heq' : (a.x, toLex (a.y, a.z)) = (b.x, toLex (b.y, b.z)) := toLex.injective heq
    have hx : a.x = b.x := congrArg Prod.fst heq'
    have hyz : (a.y, a.z) = (b.y, b.z) := toLex.injective (congrArg Prod.snd heq')
    ext
    · exact hx
    · exact congrArg Prod.fst hyz
    · exact congrArg Prod.snd hyz

/-- C5: `save_to_file` writes exactly six records: the four vertex records of
`p0, p1, p2, p3` in that order, then the face records `f 2 3 1` and `f 2 4 3`. -/
theorem C5_save_records (pl : Plane K) :
    save_to_file pl =
      [Record.v pl.p0.x pl.p0.y pl.p0.z, Record.v pl.p1.x pl.p1.y pl.p1.z,
        Record.v pl.p2.x pl.p2.y pl.p2.z, Record.v pl.p3.x pl.p3.y pl.p3.z,
        Record.f [2, 3, 1], Record.f [2, 4, 3]]
      ∧ (save_to_file pl).length = 6 :=
  ⟨rfl, rfl⟩

/-- C6 (what the code does): the two saved faces are the triangles `p1 p2 p0`
and `p1 p3 p2`; the edge they share is `p1 p2`, a side of the quadrilateral
`p0 → p1 → p2 → p3` and not a diagonal.  On the plane the edge/normal
constructor builds from the sample input (unit perpendicular normal, box of
diagonal 3) the point `(1/2, 0, -2)` is interior to both triangles, and the
point `(1/2, 0, 2)` of the quadrilateral lies in neither. -/
theorem C6_saved_faces_share_a_side :
    sharedVertices [1, 2, 0] [1, 3, 2] = [1, 2] ∧ isSide 1 2 = true ∧ isDiagonal 1 2 = false ∧
    ∃ pl : Plane ℚ, Plane.fromEdge Rat.sqrt sampleEdge sampleNormal sampleBBox = some pl ∧
      triangles pl = [[pl.p1, pl.p2, pl.p0], [pl.p1, pl.p3, pl.p2]] ∧
      InTriangleInterior pl.p1 pl.p2 pl.p0 ⟨1 / 2, 0, -2⟩ ∧
      InTriangleInterior pl.p1 pl.p3 pl.p2 ⟨1 / 2, 0, -2⟩ ∧
      InQuad pl ⟨1 / 2, 0, 2⟩ ∧
      ¬ InTriangle pl.p1 pl.p2 pl.p0 ⟨1 / 2, 0, 2⟩ ∧
      ¬ InTriangle pl.p1 pl.p3 pl.p2 ⟨1 / 2, 0, 2⟩ := by
  refine ⟨by decide, by decide, by decide, _, fromEdge_eq _ _ _ _, rfl, ?_⟩
  rw [sample_edgeCorners]
  refine ⟨?_, ?_, ?_, ?_, ?_⟩
  · refine ⟨1 / 3, 1 / 2, 1 / 6, by norm_num, by norm_num, by norm_num, by norm_num, ?_⟩
    ext <;> norm_num
  · refine ⟨1 / 2, 1 / 6, 1 / 3, by norm_num, by norm_num, by norm_num, by norm_num, ?_⟩
    ext <;> norm_num
  · refine ⟨1 / 2, 5 / 6, by norm_num, by norm_num, by norm_num, by norm_num, ?_⟩
    ext <;> norm_num
  · rintro ⟨a, b, c, ha, hb, hc, hsum, h⟩
    have hx := congrArg Vector3d.x h
    have hz := congrArg Vector3d.z h
    simp only [Vector3d.add_x, Vector3d.smul_x, Vector3d.add_z, Vector3d.smul_z] at hx hz
    linarith
  · rintro ⟨a, b, c, ha, hb, hc, hsum, h⟩
    have hx := congrArg Vector3d.x h
    have hz := congrArg Vector3d.z h
    simp only [Vector3d.add_x, Vector3d.smul_x, Vector3d.add_z, Vector3d.smul_z] at hx hz
    linarith

/-- C7: round trip.  For a plane with pairwise distinct corners, loading the
file that `save_to_file` wrote returns a plane, and its four corners are the
four corners of the saved plane, up to order. -/
theorem C7_round_trip (lt : Vector3d K → Vector3d K → Bool) (hlt : IsStrictTotal lt)
    (pl : Plane K) (hdistinct : pl.corners.Nodup) :
    ∃ pl' : Plane K,
      load_from_file lt true (LoadObj (save_to_file pl)) = LoadResult.plane pl' ∧
      (∀ v, v ∈ pl'.corners ↔ v ∈ pl.corners) ∧ pl'.corners.Perm pl.corners := by
  have hperm : (vertsSet lt pl.corners).Perm pl.corners :=
    (List.perm_ext_iff_of_nodup (nodup_vertsSet hlt _) hdistinct).2
      (fun a => mem_vertsSet hlt a _)
  have hlen : (vertsSet lt pl.corners).length = 4 := hperm.length_eq
  rw [LoadObj_save_to_file]
  match hs : vertsSet lt pl.corners, hlen with
  | [v0, v1, v2, v3], _ =>
    rw [hs] at hperm
    exact ⟨⟨v0, v1, v2, v3⟩, load_from_file_of_cons lt _ v0 v1 v2 v3 [] hs,
      fun v => hperm.mem_iff, hperm⟩

/-- Witness for C7: the sample plane under the lexicographic comparator. -/
theorem C7_round_trip_witness :
    IsStrictTotal (Vector3d.lexLt : Vector3d ℚ → Vector3d ℚ → Bool) ∧
    samplePlane.corners.Nodup ∧
    ∃ pl' : Plane ℚ,
      load_from_file Vector3d.lexLt true (LoadObj (save_to_file samplePlane))
        = LoadResult.plane pl' ∧
      (∀ v, v ∈ pl'.corners ↔ v ∈ samplePlane.corners) ∧
      pl'.corners.Perm samplePlane.corners :=
  ⟨lexLt_isStrictTotal, by decide,
    C7_round_trip Vector3d.lexLt lexLt_isStrictTotal samplePlane (by decide)⟩

/-- C8 (what the code does): on a parsed file with three vertices, and on one
with four vertex records of which two are equal, `load_from_file` reaches
`verts[3]` with fewer than four elements in `verts`: it reads out of bounds,
and reports no error. -/
theorem C8_load_fewer_than_four_reads_out_of_bounds :
    load_from_file Vector3d.lexLt true (toAttrib threeVerts) = LoadResult.outOfBounds ∧
    load_from_file Vector3d.lexLt true (toAttrib fourVertsTwoEqual) = LoadResult.outOfBounds ∧
    (vertsSet Vector3d.lexLt threeVerts).length = 3 ∧
    (vertsSet Vector3d.lexLt fourVertsTwoEqual).length = 3 := by
  decide

/-- C9: `load_from_file` is order-independent and duplicate-insensitive.  Two
parsed vertex lists holding the same set of at least four distinct vertices
load to the same plane; its corners are the first four elements of the
deduplicated set in the set's order, and they are pairwise distinct. -/
theorem C9_load_order_independent [DecidableEq K] (lt : Vector3d K → Vector3d K → Bool)
    (hlt : IsStrictTotal lt) (vs ws : List (Vector3d K))
    (hsame : ∀ v, v ∈ vs ↔ v ∈ ws) (hfour : 4 ≤ vs.toFinset.card) :
    ∃ (v0 v1 v2 v3 : Vector3d K) (rest : List (Vector3d K)),
      vertsSet lt vs = v0 :: v1 :: v2 :: v3 :: rest ∧
      (∀ v, v ∈ v0 :: v1 :: v2 :: v3 :: rest ↔ v ∈ vs) ∧
      (v0 :: v1 :: v2 :: v3 :: rest).Pairwise (fun a b => lt a b = true) ∧
      load_from_file lt true (toAttrib vs) = LoadResult.plane ⟨v0, v1, v2, v3⟩ ∧
      load_from_file lt true (toAttrib ws) = LoadResult.plane ⟨v0, v1, v2, v3⟩ ∧
      [v0, v1, v2, v3].Nodup := by
  have hperm : (vertsSet lt vs).Perm vs.dedup :=
    (List.perm_ext_iff_of_nodup (nodup_vertsSet hlt _) (List.nodup_dedup vs)).2
      (fun a => by rw [mem_vertsSet hlt, List.mem_dedup])
  have hlen : 4 ≤ (vertsSet lt vs).length := by
    rw [hperm.length_eq, ← List.card_toFinset]; exact hfour
  have hcongr := vertsSet_congr hlt vs ws hsame
  have hmem := fun v => mem_vertsSet hlt v vs
  have hpw := pairwise_vertsSet hlt vs
  have hnd := nodup_vertsSet hlt vs
  match hs : vertsSet lt vs, hlen with
  | v0 :: v1 :: v2 :: v3 :: rest, _ =>
    rw [hs] at hmem hpw hnd
    refine ⟨v0, v1, v2, v3, rest, rfl, hmem, hpw,
      load_from_file_of_cons lt vs v0 v1 v2 v3 rest hs,
      load_from_file_of_cons lt ws v0 v1 v2 v3 rest (hcongr ▸ hs), ?_⟩
    have hsub : List.Sublist [v0, v1, v2, v3] (v0 :: v1 :: v2 :: v3 :: rest) := by
      simp
    exact hnd.sublist hsub

/-- Witness for C9: the sample vertex lists under the lexicographic comparator. -/
theorem C9_load_order_independent_witness :
    IsStrictTotal (Vector3d.lexLt : Vector3d ℚ → Vector3d ℚ → Bool) ∧
    (∀ v, v ∈ sampleVerts ↔ v ∈ sampleVertsReordered) ∧
    4 ≤ sampleVerts.toFinset.card ∧
    ∃ (v0 v1 v2 v3 : Vector3d ℚ) (rest : List (Vector3d ℚ)),
      vertsSet Vector3d.lexLt sampleVerts = v0 :: v1 :: v2 :: v3 :: rest ∧
      (∀ v, v ∈ v0 :: v1 :: v2 :: v3 :: rest ↔ v ∈ sampleVerts) ∧
      (v0 :: v1 :: v2 :: v3 :: rest).Pairwise (fun a b => Vector3d.lexLt a b = true) ∧
      load_from_file Vector3d.lexLt true (toAttrib sampleVerts)
        = LoadResult.plane ⟨v0, v1, v2, v3⟩ ∧
      load_from_file Vector3d.lexLt true (toAttrib sampleVertsReordered)
        = LoadResult.plane ⟨v0, v1, v2, v3⟩ ∧
      [v0, v1, v2, v3].Nodup := by
  have hsame : ∀ v, v ∈ sampleVerts ↔ v ∈ sampleVertsReordered := by
    intro v
    simp only [sampleVerts, sampleVertsReordered, List.mem_cons, List.mem_singleton,
      List.not_mem_nil, or_false]
    tauto
  have hfour : 4 ≤ sampleVerts.toFinset.card := by decide
  exact ⟨lexLt_isStrictTotal, hsame, hfour,
    C9_load_order_independent Vector3d.lexLt lexLt_isStrictTotal sampleVerts
      sampleVertsReordered hsame hfour⟩

/-- A save through a stream whose open failed leaves the file system as it was. -/
theorem save_to_file_at_of_not_canOpen (canOpen : String → Bool) (fs : FileSystem K)
    (path : String) (pl : Plane K) (h : canOpen path = false) :
    save_to_file_at canOpen fs path pl = fs := by
  simp [save_to_file_at, OfStream.openFile, OfStream.writeRecord, h, faces]

/-- A save through a stream whose open succeeded leaves the six records at
the path and every other file as it was. -/
theorem save_to_file_at_of_canOpen (canOpen : String → Bool) (fs : FileSystem K)
    (path : String) (pl : Plane K) (h : canOpen path = true) :
    save_to_file_at canOpen fs path pl
      = fun p => if p = path then some (save_to_file pl) else fs p := by
  funext p
  by_cases hp : p = path
  · subst hp
    simp [save_to_file_at, OfStream.openFile, OfStream.writeRecord, h, faces, save_to_file]
  · simp [save_to_file_at, OfStream.openFile, OfStream.writeRecord, h, faces, hp]

/-- C15, as stated, fails: when the path cannot be opened for writing nothing
is written, so the content of the file after `save_to_file` is its previous
content and differs between two file systems that held different content. -/
theorem C15_counterexample :
    save_to_file_at noPathOpens emptyFiles "plane.obj" samplePlane "plane.obj" = some [] ∧
    save_to_file_at noPathOpens oneRecordFiles "plane.obj" samplePlane "plane.obj"
      = some [Record.v 7 7 7] ∧
    save_to_file_at noPathOpens emptyFiles "plane.obj" samplePlane "plane.obj"
      ≠ save_to_file_at noPathOpens oneRecordFiles "plane.obj" samplePlane "plane.obj" := by
  rw [save_to_file_at_of_not_canOpen noPathOpens emptyFiles "plane.obj" samplePlane rfl,
    save_to_file_at_of_not_canOpen noPathOpens oneRecordFiles "plane.obj" samplePlane rfl]
  refine ⟨rfl, rfl, ?_⟩
  simp [emptyFiles, oneRecordFiles]

/-- C15, amended: for every plane and every path that can be opened for
writing, the content of the file after `save_to_file` is the six records of
the plane whatever the file system held before; for a path that cannot be
opened nothing is written and the file system is unchanged; in both cases
saving the same plane twice to the same path leaves what saving it once
leaves, and no other file is touched. -/
theorem C15_save_idempotent (canOpen : String → Bool) (fs fs' : FileSystem K)
    (path : String) (pl : Plane K) :
    (canOpen path = true →
      save_to_file_at canOpen fs path pl path = some (save_to_file pl) ∧
      save_to_file_at canOpen fs path pl path = save_to_file_at canOpen fs' path pl path) ∧
    (canOpen path = false → save_to_file_at canOpen fs path pl = fs) ∧
    save_to_file_at canOpen (save_to_file_at canOpen fs path pl) path pl
      = save_to_file_at canOpen fs path pl ∧
    (∀ p, p ≠ path → save_to_file_at canOpen fs path pl p = fs p) := by
  cases h : canOpen path
  · have hfs := save_to_file_at_of_not_canOpen canOpen fs path pl h
    refine ⟨fun hc => absurd hc (by simp), fun _ => hfs, ?_, ?_⟩
    · rw [hfs, hfs]
    · intro p _
      rw [hfs]
  · refine ⟨fun _ => ?_, fun hc => absurd hc (by simp), ?_, ?_⟩
    · rw [save_to_file_at_of_canOpen canOpen fs path pl h,
        save_to_file_at_of_canOpen canOpen fs' path pl h]
      simp
    · rw [save_to_file_at_of_canOpen canOpen _ path pl h,
        save_to_file_at_of_canOpen canOpen fs path pl h]
      funext p
      by_cases hp : p = path <;> simp [hp]
    · intro p hp
      rw [save_to_file_at_of_canOpen canOpen fs path pl h]
      simp [hp]

/-- Witness for the amended C15: the sample plane saved to `plane.obj`, once
where every path opens and once where none does. -/
theorem C15_save_idempotent_witness :
    everyPathOpens "plane.obj" = true ∧ noPathOpens "plane.obj" = false ∧
    save_to_file_at everyPathOpens oneRecordFiles "plane.obj" samplePlane "plane.obj"
      = some (save_to_file samplePlane) ∧
    save_to_file_at everyPathOpens oneRecordFiles "plane.obj" samplePlane "plane.obj"
      = save_to_file_at everyPathOpens emptyFiles "plane.obj" samplePlane "plane.obj" ∧
    save_to_file_at noPathOpens oneRecordFiles "plane.obj" samplePlane = oneRecordFiles :=
  ⟨rfl, rfl,
    ((C15_save_idempotent everyPathOpens oneRecordFiles emptyFiles "plane.obj"
      samplePlane).1 rfl).1,
    ((C15_save_idempotent everyPathOpens oneRecordFiles emptyFiles "plane.obj"
      samplePlane).1 rfl).2,
    (C15_save_idempotent noPathOpens oneRecordFiles emptyFiles "plane.obj"
      samplePlane).2.1 rfl⟩

end FileTheorems

section HullTheorems

variable {K : Type} [LinearOrderedField K]

/-- The corners `p0`, `p1`, `p2` of the hull-equation constructor, in
coordinates. -/
theorem fromHull_corners (P : K) (q : Vector3d K) (p : HullPlane K) (bbox : BBox K) :
    (Plane.fromHull P q p bbox).p0 = ⟨bbox.a - P, bbox.b - P, bbox.c - P⟩ ∧
    (Plane.fromHull P q p bbox).p1 = ⟨bbox.x + P, bbox.b, bbox.c⟩ ∧
    (Plane.fromHull P q p bbox).p2 = ⟨bbox.a, bbox.y + P, bbox.c⟩ := by
  refine ⟨?_, ?_, ?_⟩ <;> ext <;>
    simp only [Plane.fromHull, BBox.minCoords, BBox.maxCoords, Vector3d.Ones, Vector3d.UnitX,
      Vector3d.UnitY, Vector3d.sub_x, Vector3d.sub_y, Vector3d.sub_z, Vector3d.add_x,
      Vector3d.add_y, Vector3d.add_z, Vector3d.smul_x, Vector3d.smul_y, Vector3d.smul_z] <;>
    ring

/-- For a unit normal, the signed offset of a point `v` from the hull plane is
`n · v + D`. -/
theorem dot_sub_planePoint (p : HullPlane K) (v : Vector3d K)
    (hunit : Vector3d.dot p.m_N p.m_N = 1) :
    Vector3d.dot p.m_N (v - planePoint p) = Vector3d.dot p.m_N v + p.m_D := by
  simp only [Vector3d.dot, planePoint, Vector3d.sub_x, Vector3d.sub_y, Vector3d.sub_z,
    Vector3d.smul_x, Vector3d.smul_y, Vector3d.smul_z] at hunit ⊢
  linear_combination p.m_D * hunit

/-- C10, as stated, fails: for the hull plane with unit normal `(0,0,1)` and
offset `5`, the unit box and the padding `1`, none of `p0`, `p1`, `p2` lies on
the hull plane; their signed offsets are `4`, `5` and `5`. -/
theorem C10_counterexample :
    Vector3d.dot sampleHull.m_N sampleHull.m_N = 1 ∧
    Vector3d.dot sampleHull.m_N
      ((Plane.fromHull 1 ⟨0, 0, 0⟩ sampleHull unitBBox).p0 - planePoint sampleHull) = 4 ∧
    Vector3d.dot sampleHull.m_N
      ((Plane.fromHull 1 ⟨0, 0, 0⟩ sampleHull unitBBox).p1 - planePoint sampleHull) = 5 ∧
    Vector3d.dot sampleHull.m_N
      ((Plane.fromHull 1 ⟨0, 0, 0⟩ sampleHull unitBBox).p2 - planePoint sampleHull) = 5 ∧
    ¬ (Vector3d.dot sampleHull.m_N
        ((Plane.fromHull 1 ⟨0, 0, 0⟩ sampleHull unitBBox).p0 - planePoint sampleHull) = 0 ∧
      Vector3d.dot sampleHull.m_N
        ((Plane.fromHull 1 ⟨0, 0, 0⟩ sampleHull unitBBox).p1 - planePoint sampleHull) = 0 ∧
      Vector3d.dot sampleHull.m_N
        ((Plane.fromHull 1 ⟨0, 0, 0⟩ sampleHull unitBBox).p2 - planePoint sampleHull) = 0) := by
  have hunit : Vector3d.dot sampleHull.m_N sampleHull.m_N = 1 := by
    norm_num [Vector3d.dot, sampleHull]
  obtain ⟨h0, h1, h2⟩ := fromHull_corners (1 : ℚ) ⟨0, 0, 0⟩ sampleHull unitBBox
  rw [h0, h1, h2, dot_sub_planePoint _ _ hunit, dot_sub_planePoint _ _ hunit,
    dot_sub_planePoint _ _ hunit]
  norm_num [Vector3d.dot, sampleHull, unitBBox]

/-- C10, amended: for a hull plane with unit normal `n` and offset `D`, every
bounding box `(a, b, c, x, y, z)` and padding `P`, the hull-equation
constructor sets `p0 = (a-P, b-P, c-P)`, `p1 = (x+P, b, c)`, `p2 = (a, y+P, c)`,
and the signed offset `n · (pi - planePoint)` of each from the hull plane is
`n · pi + D`; a corner lies on the hull plane exactly when `n · pi + D = 0`. -/
theorem C10_hull_corner_offsets (P : K) (q : Vector3d K) (p : HullPlane K) (bbox : BBox K)
    (hunit : Vector3d.dot p.m_N p.m_N = 1) :
    ((Plane.fromHull P q p bbox).p0 = ⟨bbox.a - P, bbox.b - P, bbox.c - P⟩ ∧
      (Plane.fromHull P q p bbox).p1 = ⟨bbox.x + P, bbox.b, bbox.c⟩ ∧
      (Plane.fromHull P q p bbox).p2 = ⟨bbox.a, bbox.y + P, bbox.c⟩) ∧
    (Vector3d.dot p.m_N ((Plane.fromHull P q p bbox).p0 - planePoint p)
        = Vector3d.dot p.m_N (Plane.fromHull P q p bbox).p0 + p.m_D ∧
      Vector3d.dot p.m_N ((Plane.fromHull P q p bbox).p1 - planePoint p)
        = Vector3d.dot p.m_N (Plane.fromHull P q p bbox).p1 + p.m_D ∧
      Vector3d.dot p.m_N ((Plane.fromHull P q p bbox).p2 - planePoint p)
        = Vector3d.dot p.m_N (Plane.fromHull P q p bbox).p2 + p.m_D) ∧
    ((Vector3d.dot p.m_N ((Plane.fromHull P q p bbox).p0 - planePoint p) = 0 ↔
        Vector3d.dot p.m_N (Plane.fromHull P q p bbox).p0 + p.m_D = 0) ∧
      (Vector3d.dot p.m_N ((Plane.fromHull P q p bbox).p1 - planePoint p) = 0 ↔
        Vector3d.dot p.m_N (Plane.fromHull P q p bbox).p1 + p.m_D = 0) ∧
      (Vector3d.dot p.m_N ((Plane.fromHull P q p bbox).p2 - planePoint p) = 0 ↔
        Vector3d.dot p.m_N (Plane.fromHull P q p bbox).p2 + p.m_D = 0)) := by
  refine ⟨fromHull_corners P q p bbox, ⟨dot_sub_planePoint p _ hunit,
    dot_sub_planePoint p _ hunit, dot_sub_planePoint p _ hunit⟩, ?_, ?_, ?_⟩ <;>
    rw [dot_sub_planePoint p _ hunit]

/-- Witness for the amended C10 on the sample hull plane and the unit box. -/
theorem C10_hull_corner_offsets_witness :
    Vector3d.dot sampleHull.m_N sampleHull.m_N = 1 ∧
    (Plane.fromHull 1 ⟨0, 0, 0⟩ sampleHull unitBBox).p0
      = ⟨unitBBox.a - 1, unitBBox.b - 1, unitBBox.c - 1⟩ ∧
    Vector3d.dot sampleHull.m_N
        ((Plane.fromHull 1 ⟨0, 0, 0⟩ sampleHull unitBBox).p0 - planePoint sampleHull)
      = Vector3d.dot sampleHull.m_N (Plane.fromHull 1 ⟨0, 0, 0⟩ sampleHull unitBBox).p0
        + sampleHull.m_D :=
  have hunit : Vector3d.dot sampleHull.m_N sampleHull.m_N = 1 := by
    norm_num [Vector3d.dot, sampleHull]
  ⟨hunit,
    (C10_hull_corner_offsets 1 ⟨0, 0, 0⟩ sampleHull unitBBox hunit).1.1,
    (C10_hull_corner_offsets 1 ⟨0, 0, 0⟩ sampleHull unitBBox hunit).2.1.1⟩

/-- C11 (what the code does): for the hull plane with unit normal `(0,0,1)` and
offset `5`, the unit box, the padding `1` and the member `p3` holding `(0,0,0)`
before the assignment, the divisor of line 59 is `-1`, the assigned `p3` is
`(-4,-4,-9)`, and `det[(p1-p0), (p2-p0), (p3-p0)] = -52`: the four corners are
not coplanar. -/
theorem C11_hull_corners_not_coplanar :
    Vector3d.dot sampleHull.m_N sampleHull.m_N = 1 ∧
    hullDivisor 1 ⟨0, 0, 0⟩ sampleHull unitBBox = -1 ∧
    Plane.fromHull 1 ⟨0, 0, 0⟩ sampleHull unitBBox
      = ⟨⟨-1, -1, -1⟩, ⟨2, 0, 0⟩, ⟨0, 2, 0⟩, ⟨-4, -4, -9⟩⟩ ∧
    (Plane.fromHull 1 ⟨0, 0, 0⟩ sampleHull unitBBox).det = -52 ∧
    (Plane.fromHull 1 ⟨0, 0, 0⟩ sampleHull unitBBox).det ≠ 0 := by
  have hpl : Plane.fromHull 1 ⟨0, 0, 0⟩ sampleHull unitBBox
      = ⟨⟨-1, -1, -1⟩, ⟨2, 0, 0⟩, ⟨0, 2, 0⟩, ⟨-4, -4, -9⟩⟩ := by
    simp only [Plane.fromHull, BBox.minCoords, BBox.maxCoords, Vector3d.Ones, Vector3d.UnitX,
      Vector3d.UnitY, Vector3d.dot, sampleHull, unitBBox, Plane.mk.injEq]
    refine ⟨?_, ?_, ?_, ?_⟩ <;> ext <;>
      simp only [Vector3d.sub_x, Vector3d.sub_y, Vector3d.sub_z, Vector3d.add_x,
        Vector3d.add_y, Vector3d.add_z, Vector3d.smul_x, Vector3d.smul_y, Vector3d.smul_z] <;>
      norm_num
  have hdet : (Plane.fromHull 1 ⟨0, 0, 0⟩ sampleHull unitBBox).det = -52 := by
    rw [hpl]
    simp only [Plane.det, determinant, Vector3d.sub_x, Vector3d.sub_y, Vector3d.sub_z]
    norm_num
  refine ⟨by norm_num [Vector3d.dot, sampleHull], ?_, hpl, hdet, ?_⟩
  · rw [hullDivisor, hpl]
    simp only [Vector3d.dot, sampleHull, Vector3d.sub_x, Vector3d.sub_y, Vector3d.sub_z]
    norm_num
  · rw [hdet]; norm_num

/-- C12, as stated, fails: for the unit box and the padding `1` the constructor
sets `p1 = (2,0,0)` and `p2 = (0,2,0)`, while `p0` extended along the X axis by
the X-extent plus twice the padding is `(2,-1,-1)` and `p0` extended along the
Y axis likewise is `(-1,2,-1)`. -/
theorem C12_counterexample :
    (Plane.fromHull 1 ⟨0, 0, 0⟩ sampleHull unitBBox).p1 = ⟨2, 0, 0⟩ ∧
    (Plane.fromHull 1 ⟨0, 0, 0⟩ sampleHull unitBBox).p0
      + (unitBBox.maxCoords.x - unitBBox.minCoords.x + 2 * 1) • (Vector3d.UnitX : Vector3d ℚ)
      = ⟨2, -1, -1⟩ ∧
    (Plane.fromHull 1 ⟨0, 0, 0⟩ sampleHull unitBBox).p2 = ⟨0, 2, 0⟩ ∧
    (Plane.fromHull 1 ⟨0, 0, 0⟩ sampleHull unitBBox).p0
      + (unitBBox.maxCoords.y - unitBBox.minCoords.y + 2 * 1) • (Vector3d.UnitY : Vector3d ℚ)
      = ⟨-1, 2, -1⟩ ∧
    (Plane.fromHull 1 ⟨0, 0, 0⟩ sampleHull unitBBox).p1 ≠
      (Plane.fromHull 1 ⟨0, 0, 0⟩ sampleHull unitBBox).p0
        + (unitBBox.maxCoords.x - unitBBox.minCoords.x + 2 * 1) • (Vector3d.UnitX : Vector3d ℚ) ∧
    (Plane.fromHull 1 ⟨0, 0, 0⟩ sampleHull unitBBox).p2 ≠
      (Plane.fromHull 1 ⟨0, 0, 0⟩ sampleHull unitBBox).p0
        + (unitBBox.maxCoords.y - unitBBox.minCoords.y + 2 * 1) • (Vector3d.UnitY : Vector3d ℚ) := by
  obtain ⟨h0, h1, h2⟩ := fromHull_corners (1 : ℚ) ⟨0, 0, 0⟩ sampleHull unitBBox
  rw [h0, h1, h2]
  simp only [unitBBox, BBox.maxCoords, BBox.minCoords, Vector3d.UnitX, Vector3d.UnitY,
    Vector3d.ext_iff, Vector3d.add_x, Vector3d.add_y, Vector3d.add_z, Vector3d.smul_x,
    Vector3d.smul_y, Vector3d.smul_z, ne_eq]
  norm_num

/-- C12, amended: with `p0 = min - P*(1,1,1)`, the hull-equation constructor sets
`p1 = (min - P*UnitX) + (max.x - min.x + 2P)*UnitX = (max.x + P, min.y, min.z)` and
`p2 = (min - P*UnitY) + (max.y - min.y + 2P)*UnitY = (min.x, max.y + P, min.z)`;
that is `p1 = p0 + (max.x - min.x + 2P)*UnitX + P*(0,1,1)` and
`p2 = p0 + (max.y - min.y + 2P)*UnitY + P*(1,0,1)`, which are `p0` extended
along the X axis, respectively the Y axis, exactly when `P = 0`. -/
theorem C12_hull_p1_p2 (P : K) (q : Vector3d K) (p : HullPlane K) (bbox : BBox K) :
    (Plane.fromHull P q p bbox).p0 = bbox.minCoords - P • (Vector3d.Ones : Vector3d K) ∧
    (Plane.fromHull P q p bbox).p1 = ⟨bbox.maxCoords.x + P, bbox.minCoords.y, bbox.minCoords.z⟩ ∧
    (Plane.fromHull P q p bbox).p2 = ⟨bbox.minCoords.x, bbox.maxCoords.y + P, bbox.minCoords.z⟩ ∧
    (Plane.fromHull P q p bbox).p1 = (Plane.fromHull P q p bbox).p0
      + (bbox.maxCoords.x - bbox.minCoords.x + 2 * P) • (Vector3d.UnitX : Vector3d K)
      + P • (⟨0, 1, 1⟩ : Vector3d K) ∧
    (Plane.fromHull P q p bbox).p2 = (Plane.fromHull P q p bbox).p0
      + (bbox.maxCoords.y - bbox.minCoords.y + 2 * P) • (Vector3d.UnitY : Vector3d K)
      + P • (⟨1, 0, 1⟩ : Vector3d K) ∧
    ((Plane.fromHull P q p bbox).p1 = (Plane.fromHull P q p bbox).p0
      + (bbox.maxCoords.x - bbox.minCoords.x + 2 * P) • (Vector3d.UnitX : Vector3d K) ↔ P = 0) ∧
    ((Plane.fromHull P q p bbox).p2 = (Plane.fromHull P q p bbox).p0
      + (bbox.maxCoords.y - bbox.minCoords.y + 2 * P) • (Vector3d.UnitY : Vector3d K) ↔ P = 0) := by
  obtain ⟨h0, h1, h2⟩ := fromHull_corners P q p bbox
  rw [h0, h1, h2]
  simp only [BBox.maxCoords, BBox.minCoords, Vector3d.UnitX, Vector3d.UnitY, Vector3d.Ones,
    Vector3d.ext_iff, Vector3d.add_x, Vector3d.add_y, Vector3d.add_z, Vector3d.sub_x,
    Vector3d.sub_y, Vector3d.sub_z, Vector3d.smul_x, Vector3d.smul_y, Vector3d.smul_z]
  refine ⟨⟨by ring, by ring, by ring⟩, trivial, trivial,
    ⟨by ring, by ring, by ring⟩, ⟨by ring, by ring, by ring⟩, ?_, ?_⟩
  · constructor
    · rintro ⟨_, hy, _⟩
      linear_combination hy
    · rintro rfl
      exact ⟨by ring, by ring, by ring⟩
  · constructor
    · rintro ⟨hx, _, _⟩
      linear_combination hx
    · rintro rfl
      exact ⟨by ring, by ring, by ring⟩

/-- The signed offset of the point assigned on line 59, for any points and
normal with a non-zero divisor. -/
theorem dot_line59 (pp p0 q n : Vector3d K) (hdiv : Vector3d.dot n (p0 - q) ≠ 0) :
    Vector3d.dot n
        ((pp + (Vector3d.dot (p0 - pp) n / Vector3d.dot n (p0 - q)) • (q - p0)) - pp)
      = -Vector3d.dot n (p0 - pp) := by
  have hcomm : Vector3d.dot (p0 - pp) n = Vector3d.dot n (p0 - pp) := by
    simp only [Vector3d.dot]; ring
  rw [hcomm]
  generalize hs : Vector3d.dot n (p0 - pp) = s
  generalize hd : Vector3d.dot n (p0 - q) = dv at hdiv ⊢
  have hq : Vector3d.dot n (q - p0) = -dv := by
    rw [← hd]
    simp only [Vector3d.dot, Vector3d.sub_x, Vector3d.sub_y, Vector3d.sub_z]
    ring
  simp only [Vector3d.dot, Vector3d.sub_x, Vector3d.sub_y, Vector3d.sub_z, Vector3d.add_x,
    Vector3d.add_y, Vector3d.add_z, Vector3d.smul_x, Vector3d.smul_y, Vector3d.smul_z] at hq ⊢
  field_simp
  linear_combination s * hq

/-- C18: in the hull-equation constructor, when the divisor `n · (p0 - q)` is
non-zero for the prior value `q` of the member `p3`, the assigned
`p3 = planePoint + ((p0 - planePoint) · n / (n · (p0 - q))) * (q - p0)` has
`n · (p3 - planePoint) = -(n · (p0 - planePoint))`, so `p3` lies on the hull
plane if and only if `p0` does. -/
theorem C18_hull_p3_signed_distance (P : K) (q : Vector3d K) (p : HullPlane K)
    (bbox : BBox K) (hunit : Vector3d.dot p.m_N p.m_N = 1)
    (hdiv : Vector3d.dot p.m_N ((Plane.fromHull P q p bbox).p0 - q) ≠ 0) :
    (Plane.fromHull P q p bbox).p3 = planePoint p +
      (Vector3d.dot ((Plane.fromHull P q p bbox).p0 - planePoint p) p.m_N /
        Vector3d.dot p.m_N ((Plane.fromHull P q p bbox).p0 - q)) •
          (q - (Plane.fromHull P q p bbox).p0) ∧
    Vector3d.dot p.m_N ((Plane.fromHull P q p bbox).p3 - planePoint p)
      = -Vector3d.dot p.m_N ((Plane.fromHull P q p bbox).p0 - planePoint p) ∧
    (Vector3d.dot p.m_N ((Plane.fromHull P q p bbox).p3 - planePoint p) = 0 ↔
      Vector3d.dot p.m_N ((Plane.fromHull P q p bbox).p0 - planePoint p) = 0) := by
  have _ := hunit
  have h3 : (Plane.fromHull P q p bbox).p3 = planePoint p +
      (Vector3d.dot ((Plane.fromHull P q p bbox).p0 - planePoint p) p.m_N /
        Vector3d.dot p.m_N ((Plane.fromHull P q p bbox).p0 - q)) •
          (q - (Plane.fromHull P q p bbox).p0) := rfl
  have hdot := dot_line59 (planePoint p) (Plane.fromHull P q p bbox).p0 q p.m_N hdiv
  rw [← h3] at hdot
  refine ⟨h3, hdot, ?_⟩
  rw [hdot, neg_eq_zero]

/-- Witness for C18: the sample hull plane, the unit box, the padding `1` and
the prior value `(0,0,0)`, where the divisor is `-1`. -/
theorem C18_hull_p3_signed_distance_witness :
    Vector3d.dot sampleHull.m_N sampleHull.m_N = 1 ∧
    Vector3d.dot sampleHull.m_N
      ((Plane.fromHull 1 ⟨0, 0, 0⟩ sampleHull unitBBox).p0 - ⟨0, 0, 0⟩) ≠ 0 ∧
    Vector3d.dot sampleHull.m_N
        ((Plane.fromHull 1 ⟨0, 0, 0⟩ sampleHull unitBBox).p3 - planePoint sampleHull)
      = -Vector3d.dot sampleHull.m_N
        ((Plane.fromHull 1 ⟨0, 0, 0⟩ sampleHull unitBBox).p0 - planePoint sampleHull) := by
  have hunit : Vector3d.dot sampleHull.m_N sampleHull.m_N = 1 := by
    norm_num [Vector3d.dot, sampleHull]
  have hdiv : Vector3d.dot sampleHull.m_N
      ((Plane.fromHull 1 ⟨0, 0, 0⟩ sampleHull unitBBox).p0 - ⟨0, 0, 0⟩) ≠ 0 := by
    rw [(fromHull_corners (1 : ℚ) ⟨0, 0, 0⟩ sampleHull unitBBox).1]
    norm_num [Vector3d.dot, sampleHull, unitBBox]
  exact ⟨hunit, hdiv,
    (C18_hull_p3_signed_distance 1 ⟨0, 0, 0⟩ sampleHull unitBBox hunit hdiv).2.1⟩

/-- C20: the corners `p0`, `p1`, `p2` of the hull-equation constructor do not
depend on the hull-plane equation (nor on the prior value of `p3`): for any
two hull equations and the same bounding box `(a,b,c,x,y,z)` and padding `P`,
both runs give `p0 = (a-P, b-P, c-P)`, `p1 = (x+P, b, c)`, `p2 = (a, y+P, c)`. -/
theorem C20_hull_corners_independent (P : K) (q q' : Vector3d K) (p p' : HullPlane K)
    (bbox : BBox K) :
    ((Plane.fromHull P q p bbox).p0 = ⟨bbox.a - P, bbox.b - P, bbox.c - P⟩ ∧
      (Plane.fromHull P q p bbox).p1 = ⟨bbox.x + P, bbox.b, bbox.c⟩ ∧
      (Plane.fromHull P q p bbox).p2 = ⟨bbox.a, bbox.y + P, bbox.c⟩) ∧
    ((Plane.fromHull P q' p' bbox).p0 = ⟨bbox.a - P, bbox.b - P, bbox.c - P⟩ ∧
      (Plane.fromHull P q' p' bbox).p1 = ⟨bbox.x + P, bbox.b, bbox.c⟩ ∧
      (Plane.fromHull P q' p' bbox).p2 = ⟨bbox.a, bbox.y + P, bbox.c⟩) ∧
    (Plane.fromHull P q p bbox).p0 = (Plane.fromHull P q' p' bbox).p0 ∧
    (Plane.fromHull P q p bbox).p1 = (Plane.fromHull P q' p' bbox).p1 ∧
    (Plane.fromHull P q p bbox).p2 = (Plane.fromHull P q' p' bbox).p2 :=
  ⟨fromHull_corners P q p bbox, fromHull_corners P q' p' bbox, rfl, rfl, rfl⟩

/-- C16 (what the code does): for the zero-volume box `min = max = (1,1,1)`,
the padding `1`, the hull plane with unit normal `(0,0,1)` and the member `p3`
holding `(0,0,0)` before the assignment, `p0 = (0,0,0)` and the divisor
`n · (p0 - p3)` of line 59 is `0`: the computation of `p3` divides by zero.
The corners `p0`, `p1`, `p2` are pairwise distinct there. -/
theorem C16_zero_volume_divides_by_zero :
    pointBBox.minCoords = pointBBox.maxCoords ∧
    Vector3d.dot sampleHull.m_N sampleHull.m_N = 1 ∧
    (Plane.fromHull 1 ⟨0, 0, 0⟩ sampleHull pointBBox).p0 = ⟨0, 0, 0⟩ ∧
    hullDivisor 1 ⟨0, 0, 0⟩ sampleHull pointBBox = 0 ∧
    [(Plane.fromHull 1 ⟨0, 0, 0⟩ sampleHull pointBBox).p0,
      (Plane.fromHull 1 ⟨0, 0, 0⟩ sampleHull pointBBox).p1,
      (Plane.fromHull 1 ⟨0, 0, 0⟩ sampleHull pointBBox).p2].Nodup := by
  obtain ⟨h0, h1, h2⟩ := fromHull_corners (1 : ℚ) ⟨0, 0, 0⟩ sampleHull pointBBox
  have h0' : (Plane.fromHull 1 ⟨0, 0, 0⟩ sampleHull pointBBox).p0 = ⟨0, 0, 0⟩ := by
    rw [h0]; norm_num [pointBBox]
  refine ⟨rfl, by norm_num [Vector3d.dot, sampleHull], h0', ?_, ?_⟩
  · rw [hullDivisor, h0']
    simp only [Vector3d.dot, sampleHull, Vector3d.sub_x, Vector3d.sub_y, Vector3d.sub_z]
    norm_num
  · rw [h0, h1, h2]
    norm_num [pointBBox]

end HullTheorems

end Shapes
